import Mathlib

/-!
Surveyor SRV-1 driver: the communication core, `surveyor_comms.cpp`.

A shallow embedding of the motion model (`calc_forward`, `calc_speed_hackish`,
`calc_angular`, `calc_rot_hackish`), of the timed serial read (`read_limited`) and of the
exchanges built on it (`srv1_set_motors`, `srv1_set_speed`, `srv1_fill_image`,
`srv1_fill_ir`).

Conventions of the embedding.

* `double` values are exact rationals (`ℚ`); `fabs` is `|·|`.
* `signed char`, `unsigned char`, `int` and `uint32_t` values are integers; every
  conversion the C code performs is written out (`toSChar`, `toUChar`, `toInt32`,
  `toUInt32`).
* A `char` buffer is a `List Int`; `char` is signed, as on x86.
* `for (;;)` and `while` loops whose exit depends on the data are run with explicit fuel
  and return `none` when the fuel is used up.
* The serial line is a `Port`: a clock, the bytes still to arrive (each with its arrival
  time) and the log of the byte strings handed to `write`.
-/

namespace Surveyor

/-! ## Machine integers -/

/-- Conversion to `signed char` (two's complement, 8 bits). -/
def toSChar (n : Int) : Int := (n + 128) % 256 - 128

/-- Conversion to `unsigned char`. -/
def toUChar (n : Int) : Int := n % 256

/-- Conversion to `int` (two's complement, 32 bits). -/
def toInt32 (n : Int) : Int := (n + 2147483648) % 4294967296 - 2147483648

/-- Conversion to `uint32_t`. -/
def toUInt32 (n : Int) : Int := n % 4294967296

/-- The macro `SRV1_IMAGE_OFF`, the character `'Z'`. -/
def SRV1_IMAGE_OFF : Int := 90

/-- The macro `SRV1_MAX_VEL_X`. -/
def SRV1_MAX_VEL_X : ℚ := 315 / 1000

/-- The macro `SRV1_MAX_VEL_W`. -/
def SRV1_MAX_VEL_W : ℚ := 269 / 100

/-- The macro `SRV1_AXLE_LENGTH`; no function of the driver uses it. -/
def SRV1_AXLE_LENGTH : ℚ := 258 / 1000

/-! ## Motion model -/

/-- The function `calc_forward(signed char speed)`: forward velocity of one wheel code. -/
def calc_forward (speed : Int) : ℚ :=
  let speedg : Int := toUChar (if speed > 0 then speed else -speed)
  if speedg < 20 then 0
  else
    let i3 : ℚ := 55277 / 100000000000
    let j3 : ℚ := -16261 / 100000000
    let k3 : ℚ := 1628 / 100000
    let l3 : ℚ := -26129 / 100000
    let x : ℚ := k3 * speedg
    let y : ℚ := j3 * speedg * speedg
    let z : ℚ := i3 * speedg * speedg * speedg
    let result : ℚ := l3 + x + y + z
    if speed > 0 then result else -result

/-- The `for (;;)` scan of `calc_speed_hackish`, started with the counter `current`.
The counter is a `signed char`, so it takes 256 values and a scan that has not
returned after 256 rounds never returns. -/
def speedScan (dx : ℚ) : Nat → Int → Option Int
  | 0, _ => none
  | fuel + 1, current =>
    let current := toSChar (current + 1)
    if calc_forward current > |dx| then
      some (toSChar (if dx < 0 then -(current - 1) else current - 1))
    else speedScan dx fuel current

/-- The function `calc_speed_hackish(double dx)`; `none` when the scan never returns. -/
def calc_speed_hackish (dx : ℚ) : Option Int :=
  if |dx| > SRV1_MAX_VEL_X then some (if dx > 0 then 127 else -127)
  else if |dx| < 5 / 100 then some 0
  else speedScan dx 256 20

/-- The function `calc_angular(int left, int right)`; both arguments are converted to
`signed char` by the calls of `calc_forward`. -/
def calc_angular (left right : Int) : ℚ :=
  let basis : ℚ := 234 / 1000
  (calc_forward (toSChar right) - calc_forward (toSChar left)) / basis

/-- The local variables `l`, `r` and `direction` of `calc_rot_hackish`. -/
structure RotState where
  l : Int
  r : Int
  direction : Int
  deriving DecidableEq, Repr

/-- Outcome of one round of a loop: go round again, or leave the loop. -/
inductive Step (σ : Type) where
  | next (s : σ)
  | done (s : σ)

/-- Runs a loop whose round is `body` for at most `fuel` rounds. -/
def runLoop {σ : Type} (body : σ → Step σ) : Nat → σ → Option σ
  | 0, _ => none
  | fuel + 1, s =>
    match body s with
    | .done s1 => some s1
    | .next s1 => runLoop body fuel s1

/-- The second `if` of a round of the stationary loop. -/
def rotStationarySecond (dx angular : ℚ) (s : RotState) : Step RotState :=
  if angular > dx then
    if s.direction = 1 then .done s
    else
      let s1 : RotState := if s.l < 20 then { s with l := 20, r := -20 } else s
      .next { l := s1.l + 1, r := s1.r - 1, direction := -1 }
  else .next s

/-- One round of the loop of `calc_rot_hackish` taken when `l == 0`. -/
def rotStationary (dx : ℚ) (s : RotState) : Step RotState :=
  if s.l > -127 ∧ s.l < 127 ∧ s.r > -127 ∧ s.r < 127 then
    let angular := calc_angular s.l s.r
    if angular < dx then
      if s.direction = -1 then .done s
      else
        let s1 : RotState := if s.r < 20 then { s with r := 20, l := -20 } else s
        rotStationarySecond dx angular { l := s1.l - 1, r := s1.r + 1, direction := 1 }
    else rotStationarySecond dx angular s
  else .done s

/-- The second `if` of a round of the forward loop. -/
def rotForwardSecond (dx angular : ℚ) (s : RotState) : Step RotState :=
  if angular > dx then
    if s.direction = 1 then .done s
    else .next { s with l := s.l + 1, direction := -1 }
  else .next s

/-- One round of the loop of `calc_rot_hackish` taken when `l > 0`. -/
def rotForward (dx : ℚ) (s : RotState) : Step RotState :=
  if s.l < 127 ∧ s.r < 127 then
    let angular := calc_angular s.l s.r
    if angular < dx then
      if s.direction = -1 then .done s
      else rotForwardSecond dx angular { s with r := s.r + 1, direction := 1 }
    else rotForwardSecond dx angular s
  else .done s

/-- The second `if` of a round of the backward loop. -/
def rotBackwardSecond (dx angular : ℚ) (s : RotState) : Step RotState :=
  if angular > dx then
    if s.direction = 1 then .done s
    else .next { s with r := s.r - 1, direction := -1 }
  else .next s

/-- One round of the loop of `calc_rot_hackish` taken when `l < 0`. -/
def rotBackward (dx : ℚ) (s : RotState) : Step RotState :=
  if s.l > -127 ∧ s.r > -127 then
    let angular := calc_angular s.l s.r
    if angular < dx then
      if s.direction = -1 then .done s
      else rotBackwardSecond dx angular { s with l := s.l - 1, direction := 1 }
    else rotBackwardSecond dx angular s
  else .done s

/-- The function `calc_rot_hackish(double dx, signed char *left, signed char *right)`:
the values of `*left` and `*right` after the call, `none` when the search does not
stop within `fuel` rounds. The closing warning `printf` has no effect on the result. -/
def calc_rot_hackish (fuel : Nat) (dx : ℚ) (left right : Int) : Option (Int × Int) :=
  let s0 : RotState := { l := left, r := right, direction := 0 }
  if |dx| < 5 / 100 then some (left, right)
  else
    let out :=
      if s0.l = 0 then runLoop (rotStationary dx) fuel s0
      else if s0.l > 0 then runLoop (rotForward dx) fuel s0
      else runLoop (rotBackward dx) fuel s0
    match out with
    | none => none
    | some s => some (toSChar s.l, toSChar s.r)

/-! ## Serial line -/

/-- The serial line as seen through the file descriptor `fd`.

* `clock`: the wall clock, in microseconds.
* `lag`: what one polling round of `read_limited` costs on top of its `usleep(20)`.
* `inbound`: the bytes the device sends, in order, each with the clock value from
  which `read` can see it.
* `readFault`: `read` fails with an `errno` other than `EAGAIN`.
* `writeFault`: `write` fails.
* `writes`: the byte strings handed to `write`, oldest first. -/
structure Port where
  clock : Nat
  lag : Nat
  inbound : List (Nat × Int)
  readFault : Bool
  writeFault : Bool
  writes : List (List Int)
  deriving DecidableEq, Repr

/-- Result of one non-blocking `read`. -/
inductive ReadResult where
  | data (bs : List Int)
  | eagain
  | error
  deriving DecidableEq, Repr

/-- The bytes of the input queue: those that have arrived by now. -/
def Port.arrived (p : Port) : List (Nat × Int) :=
  p.inbound.takeWhile (fun e => decide (e.1 ≤ p.clock))

/-- The system call `read(fd, buf, count)` on the non-blocking descriptor. -/
def sysRead (p : Port) (count : Nat) : ReadResult × Port :=
  if p.readFault then (.error, p)
  else if count = 0 then (.data [], p)
  else
    let got := p.arrived.take count
    if got.isEmpty then (.eagain, p)
    else (.data (got.map Prod.snd), { p with inbound := p.inbound.drop got.length })

/-- The system call `write(fd, buf, n)`: the return value and the line afterwards. -/
def sysWrite (p : Port) (bytes : List Int) : Int × Port :=
  let p1 : Port := { p with writes := p.writes ++ [bytes] }
  if p.writeFault then (-1, p1) else (bytes.length, p1)

/-- The end of a polling round: `usleep(20)` and the time the round took. -/
def Port.sleep (p : Port) : Port := { p with clock := p.clock + 20 + p.lag }

/-- Stores `data` at the start of the buffer `buf`; what does not fit is outside the
buffer and is left out. -/
def bufStore (buf data : List Int) : List Int :=
  data.take buf.length ++ buf.drop data.length

/-- The `for (;;)` loop of `read_limited`. `start` is `begin`, `acc` the bytes stored in
`buf` so far (they are stored one after another from offset 0). -/
def readLoop (bytes microsecs : Int) (start : Nat) :
    Nat → Port → Int → List Int → Int × List Int × Port
  | 0, p, needtoread, acc => (bytes - needtoread, acc, p)
  | fuel + 1, p, needtoread, acc =>
    if ((p.clock : Int) - (start : Int)) > microsecs then (bytes - needtoread, acc, p)
    else
      match sysRead p (needtoread % 18446744073709551616).toNat with
      | (.error, p1) => (-1, acc, p1)
      | (.eagain, p1) => readLoop bytes microsecs start fuel p1.sleep needtoread acc
      | (.data bs, p1) =>
        let needtoread := needtoread - bs.length
        if needtoread = 0 then (bytes, acc ++ bs, p1)
        else readLoop bytes microsecs start fuel p1.sleep needtoread (acc ++ bs)

/-- The function `read_limited(fd, buf, bytes, microsecs)`: the return value, the bytes
stored at the start of `buf`, and the line afterwards. Every round of the loop advances
the clock by at least 20 microseconds, so `microsecs / 20 + 2` rounds reach the
deadline. The elapsed time is taken to fit the `int32_t` that `msecsub` returns. -/
def read_limited (p : Port) (bytes microsecs : Int) : Int × List Int × Port :=
  readLoop bytes microsecs p.clock (microsecs.toNat / 20 + 2) p bytes []

/-- The function `srv1_flush_input`: the number of bytes discarded and the line
afterwards. -/
def srv1_flush_input (p : Port) : Int × Port :=
  ((p.arrived.length : Int), { p with inbound := p.inbound.drop p.arrived.length })

/-! ## Device object -/

/-- The struct `srv1_comm_t` (without `port` and `fd`, which are the `Port`). -/
structure srv1_comm_t where
  vx : ℚ
  va : ℚ
  need_ir : Int
  bouncedir : Int × Int × Int × Int
  image_mode : Int
  set_image_mode : Int
  frame_size : Int
  frame : Option (List Int)
  deriving DecidableEq

/-- The function `srv1_set_motors(x, l, r, t)`; `runtime` is forced to 0 and a failed
`write` is ignored. -/
def srv1_set_motors (p : Port) (l r : Int) : Int × Port :=
  let runtime : Int := 0
  let cmdbuf : List Int := [77, l, r, runtime]
  let p1 := (sysWrite p cmdbuf).2
  let res := read_limited p1 2 250000
  let cmdbuf := bufStore cmdbuf res.2.1
  if res.1 = 2 then
    if toSChar (cmdbuf.getD 0 0) = 35 ∧ toSChar (cmdbuf.getD 1 0) = 77 then (1, res.2.2)
    else (0, res.2.2)
  else (0, res.2.2)

/-- The function `srv1_set_speed(x, dx, dw)`; `fuel` bounds the rotation search. -/
def srv1_set_speed (fuel : Nat) (x : srv1_comm_t) (dx dw : ℚ) (p : Port) :
    Option (Int × srv1_comm_t × Port) :=
  match calc_speed_hackish dx with
  | none => none
  | some leftspeed =>
    let rightspeed := leftspeed
    let x1 : srv1_comm_t := { x with vx := calc_forward leftspeed }
    match calc_rot_hackish fuel dw leftspeed rightspeed with
    | none => none
    | some (leftspeed, rightspeed) =>
      let x2 : srv1_comm_t := { x1 with va := calc_angular leftspeed rightspeed }
      let res := srv1_set_motors p leftspeed rightspeed
      some (res.1, x2, res.2)

/-! ## Image capture -/

/-- The C library's `strncmp(s1, s2, n)`; characters compare as `unsigned char` and
the comparison stops after a NUL. -/
def strncmp : List Int → List Int → Nat → Int
  | a :: s1, b :: s2, n + 1 =>
    if toUChar a ≠ toUChar b then toUChar a - toUChar b
    else if toUChar a = 0 then 0
    else strncmp s1 s2 n
  | _, _, _ => 0

/-- The string literal `"##IMJ"` with its closing NUL. -/
def imjHeader : List Int := [35, 35, 73, 77, 74, 0]

/-- The first block of `srv1_fill_image`: bring the camera to the desired mode.
`none` stands for `return 0`. -/
def imageModePhase (x : srv1_comm_t) (p : Port) : Option srv1_comm_t × Port :=
  if x.set_image_mode ≠ x.image_mode then
    if x.image_mode ≠ SRV1_IMAGE_OFF then
      let w := sysWrite p [x.image_mode]
      if w.1 < 0 then (none, w.2)
      else
        let res := read_limited w.2 2 500000
        let specbuf := bufStore (List.replicate 10 0) res.2.1
        if res.1 ≠ 2 then (none, (srv1_flush_input res.2.2).2)
        else if toSChar (specbuf.getD 0 0) ≠ 35 ∨ toSChar (specbuf.getD 1 0) ≠ x.image_mode then
          (none, (srv1_flush_input res.2.2).2)
        else (some { x with set_image_mode := x.image_mode }, res.2.2)
    else (some { x with set_image_mode := x.image_mode }, p)
  else (some x, p)

/-- The retry loop of `srv1_fill_image` that asks for a frame with `'I'` and reads the
10-byte header; `none` stands for `return 0`. With `tries` starting at 1 the loop makes at
most 10 rounds. -/
def captureSpec : Nat → Int → Port → Option (List Int) × Port
  | 0, _, p => (none, p)
  | fuel + 1, tries, p =>
    let w := sysWrite p [73]
    if w.1 < 0 then (none, w.2)
    else
      let res := read_limited w.2 10 500000
      let specbuf := bufStore (List.replicate 10 0) res.2.1
      if res.1 ≠ 10 then
        let fl := srv1_flush_input res.2.2
        if tries < 10 then captureSpec fuel (tries + 1) fl.2 else (none, fl.2)
      else (some specbuf, res.2.2)

/-- The value assigned to `x->frame_size`: the `int` sum of the four size bytes, stored
in a `uint32_t`. -/
def frameSizeOf (specbuf : List Int) : Int :=
  let s0 := toUChar (specbuf.getD 6 0)
  let s1 := toUChar (specbuf.getD 7 0)
  let s2 := toUChar (specbuf.getD 8 0)
  let s3 := toUChar (specbuf.getD 9 0)
  toUInt32 (toInt32 (s0 + (s1 * 256) + (s2 * 256 * 256) + (s3 * 256 * 256 * 256)))

/-- The `malloc` or `realloc` of the frame buffer to `n` bytes (taken to succeed);
bytes that the allocation leaves undetermined are 0. -/
def resizeFrame (frame : Option (List Int)) (n : Int) : List Int :=
  match frame with
  | none => List.replicate n.toNat 0
  | some old => old.take n.toNat ++ List.replicate (n.toNat - old.length) 0

/-- The function `srv1_fill_image(x)` (the debugging pause on standard input and the
dump of the frame to a file are left out). -/
def srv1_fill_image (x : srv1_comm_t) (p : Port) : Int × srv1_comm_t × Port :=
  match imageModePhase x p with
  | (none, p1) => (0, x, p1)
  | (some x1, p1) =>
    if x1.set_image_mode = SRV1_IMAGE_OFF then (1, x1, p1)
    else
      match captureSpec 10 1 p1 with
      | (none, p2) => (0, x1, p2)
      | (some specbuf, p2) =>
        if strncmp imjHeader specbuf 5 ≠ 0 then (0, x1, (srv1_flush_input p2).2)
        else
          let fs := frameSizeOf specbuf
          let frame := resizeFrame x1.frame fs
          let res := read_limited p2 (toInt32 fs) 1500000
          (1, { x1 with frame_size := fs, frame := some (bufStore frame res.2.1) }, res.2.2)

/-! ## IR query -/

/-- The C library's `isspace`. -/
def isSpace (c : Int) : Bool := decide (c = 32 ∨ (9 ≤ c ∧ c ≤ 13))

/-- Value of a hexadecimal digit character. -/
def hexDigitVal (c : Int) : Option Nat :=
  if 48 ≤ c ∧ c ≤ 57 then some (c - 48).toNat
  else if 65 ≤ c ∧ c ≤ 70 then some (c - 55).toNat
  else if 97 ≤ c ∧ c ≤ 102 then some (c - 87).toNat
  else none

/-- The C library's `isxdigit`. -/
def isHexDigit (c : Int) : Bool := (hexDigitVal c).isSome

/-- Number written by a run of hexadecimal digits. -/
def hexValue (ds : List Int) : Nat :=
  ds.foldl (fun acc c => acc * 16 + (hexDigitVal c).getD 0) 0

/-- The C string that starts a buffer: its characters up to the first NUL. -/
def cstr (buf : List Int) : List Int :=
  (buf.map toUChar).takeWhile (fun c => decide (c ≠ 0))

/-- Drops the `0x` or `0X` that may open a hexadecimal number. -/
def dropHexPrefix (s : List Int) : List Int :=
  match s with
  | c0 :: c1 :: h :: t =>
    if c0 = 48 ∧ (c1 = 120 ∨ c1 = 88) ∧ isHexDigit h = true then h :: t else s
  | _ => s

/-- Splits off the sign that may open a number: whether it is `-`, and what follows. -/
def dropSign (s : List Int) : Bool × List Int :=
  match s with
  | c :: t => if c = 45 then (true, t) else if c = 43 then (false, t) else (false, s)
  | [] => (false, s)

/-- The conversion `%x` on a C string: the `int` stored, or `none` when nothing is
stored. White space is skipped, then a sign, a `0x` and the longest run of hexadecimal
digits are read; there is no field width. A number that does not fit `unsigned long`
(64 bits) reads as `ULONG_MAX` whatever its sign, as `strtoul` gives it; otherwise a
`-` negates it. The low 32 bits are stored. -/
def scanHex (str : List Int) : Option Int :=
  let signed := dropSign (str.dropWhile isSpace)
  let ds := (dropHexPrefix signed.2).takeWhile isHexDigit
  if ds.isEmpty then none
  else
    let n : Int := ((hexValue ds : Nat) : Int)
    let v : Int :=
      if n > 18446744073709551615 then 18446744073709551615
      else if signed.1 = true then -n else n
    some (toInt32 (toUInt32 v))

/-- The C library's `sscanf(buf, "%x", &v)` on the buffer `buf`: the `int` stored in
`v`, or `none` when nothing is stored. -/
def sscanfHex (buf : List Int) : Option Int := scanHex (cstr buf)

/-- The string literal `"##BounceIR - "` with its closing NUL. -/
def bounceHeader : List Int := [35, 35, 66, 111, 117, 110, 99, 101, 73, 82, 32, 45, 32, 0]

/-- The function `srv1_fill_ir(x)`. -/
def srv1_fill_ir (x : srv1_comm_t) (p : Port) : Int × srv1_comm_t × Port :=
  let w := sysWrite p [66]
  if w.1 < 0 then (0, x, w.2)
  else
    let res := read_limited w.2 46 500000
    let buf := bufStore (List.replicate 80 0) res.2.1
    if res.1 ≠ 46 then (0, x, (srv1_flush_input res.2.2).2)
    else if strncmp buf bounceHeader 13 ≠ 0 then (0, x, (srv1_flush_input res.2.2).2)
    else
      let b := x.bouncedir
      let b0 := (sscanfHex (buf.drop 13)).getD b.1
      let b1 := (sscanfHex (buf.drop 21)).getD b.2.1
      let b2 := (sscanfHex (buf.drop 29)).getD b.2.2.1
      let b3 := (sscanfHex (buf.drop 37)).getD b.2.2.2
      (1, { x with bouncedir := (b0, b1, b2, b3) }, res.2.2)

/-! ## Sensor cycle -/

/-- The function `srv1_read_sensors(x)`: it calls `srv1_fill_image`, drops what the call
returns, and returns 1 (the call of `srv1_fill_ir` is commented out in the source). -/
def srv1_read_sensors (x : srv1_comm_t) (p : Port) : Int × srv1_comm_t × Port :=
  let res := srv1_fill_image x p
  (1, res.2.1, res.2.2)

/-- The byte string `text` arriving at once at time 0 on an otherwise quiet line. -/
def portWith (text : List Int) : Port :=
  { clock := 0, lag := 0, inbound := text.map (fun b => (0, b)),
    readFault := false, writeFault := false, writes := [] }

/-- The device object as `srv1_create` leaves it (`bouncedir`, which it leaves
undetermined, is taken as zeros). -/
def srv1_create : srv1_comm_t :=
  { vx := 0, va := 0, need_ir := 0, bouncedir := (0, 0, 0, 0),
    image_mode := SRV1_IMAGE_OFF, set_image_mode := SRV1_IMAGE_OFF,
    frame_size := 0, frame := none }

/-! ## Auxiliary definitions used in the statements -/

/-- The cubic fitted to the wheel-code magnitude, as `calc_forward` evaluates it. -/
def curve (k : Int) : ℚ :=
  -26129 / 100000 + 1628 / 100000 * k + -16261 / 100000000 * k * k
    + 55277 / 100000000000 * k * k * k

/-- A line on which nothing arrives and every polling round takes 0.3 s. -/
def silentPort : Port :=
  { clock := 0, lag := 300000, inbound := [],
    readFault := false, writeFault := false, writes := [] }

/-- The character of a hexadecimal digit, in upper case. -/
def hexDigitChar (d : Nat) : Int := if d < 10 then 48 + (d : Int) else 55 + (d : Int)

/-- The number `n` written with `w` hexadecimal digits, most significant first. -/
def hexDigits : Nat → Nat → List Int
  | 0, _ => []
  | w + 1, n => hexDigits w (n / 16) ++ [hexDigitChar (n % 16)]

/-- What may follow a number in a C string so that `%x` stops there: the end of the
string, one last character that is no hexadecimal digit, or a blank. -/
def Delimited (rest : List Int) : Prop :=
  rest = [] ∨ (∃ c, rest = [c] ∧ isHexDigit c = false) ∨ (∃ t, rest = 32 :: t)

/-- The 46 bytes of an answer to the IR query: the header, four 8-character fields and
a closing character. -/
def irResponse (f0 f1 f2 f3 : List Int) (last : Int) : List Int :=
  bounceHeader.take 13 ++ (f0 ++ (f1 ++ (f2 ++ (f3 ++ [last]))))

/-- A device that holds a 2-byte frame and whose camera is asked to switch from off to
the mode `'a'`. -/
def cameraAsked : srv1_comm_t :=
  { vx := 0, va := 0, need_ir := 0, bouncedir := (0, 0, 0, 0),
    image_mode := 97, set_image_mode := SRV1_IMAGE_OFF,
    frame_size := 2, frame := some [1, 2] }

/-- The loop of `calc_rot_hackish` that the start code selects, run from the start
state: the values of `l`, `r` and `direction` when the loop is left. -/
def rotSearch (fuel : Nat) (dx : ℚ) (left right : Int) : Option RotState :=
  if left = 0 then runLoop (rotStationary dx) fuel { l := left, r := right, direction := 0 }
  else if left > 0 then runLoop (rotForward dx) fuel { l := left, r := right, direction := 0 }
  else runLoop (rotBackward dx) fuel { l := left, r := right, direction := 0 }

/-- The bytes at the head of the queue `l` that have arrived by the time `t`. -/
def arrivedBy (t : Nat) (l : List (Nat × Int)) : List (Nat × Int) :=
  l.takeWhile (fun e => decide (e.1 ≤ t))

/-- The time of the last polling round of `read_limited` that still starts within the
deadline: rounds start every `20 + lag` microseconds. -/
def lastPoll (p : Port) (microsecs : Int) : Nat :=
  p.clock + microsecs.toNat / (20 + p.lag) * (20 + p.lag)

/-- The bytes the source delivers within the deadline: those that have arrived by the
last polling round. -/
def delivered (p : Port) (microsecs : Int) : List (Nat × Int) :=
  arrivedBy (lastPoll p microsecs) p.inbound

/-- A line that delivers two bytes at once and two more after 0.15 s, and on which
every polling round takes 0.1 s. -/
def fourBytePort : Port :=
  { clock := 0, lag := 99980, inbound := [(0, 35), (0, 35), (150000, 73), (150000, 77)],
    readFault := false, writeFault := false, writes := [] }

/-- What holds of `l`, `r` and `direction` throughout the loop of `calc_rot_hackish`
entered at rest: the start state, or a pair `(-k, k)` reached turning left, or a pair
`(k, -k)` reached turning right, with `21 ≤ k ≤ 127`. -/
def StationaryInv (s : RotState) : Prop :=
  (s.direction = 0 ∧ s.l = 0 ∧ s.r = 0) ∨
  (s.direction = 1 ∧ 21 ≤ s.r ∧ s.r ≤ 127 ∧ s.l = -s.r) ∨
  (s.direction = -1 ∧ 21 ≤ s.l ∧ s.l ≤ 127 ∧ s.r = -s.l)

/-- What holds throughout the loop entered with the start code `c > 0`: the start
state, or only `r` raised, or only `l` raised. -/
def ForwardInv (c : Int) (s : RotState) : Prop :=
  (s.direction = 0 ∧ s.l = c ∧ s.r = c) ∨
  (s.direction = 1 ∧ s.l = c ∧ c < s.r ∧ s.r ≤ 127) ∨
  (s.direction = -1 ∧ s.r = c ∧ c < s.l ∧ s.l ≤ 127)

/-- What holds throughout the loop entered with the start code `c < 0`: the start
state, or only `l` lowered, or only `r` lowered. -/
def BackwardInv (c : Int) (s : RotState) : Prop :=
  (s.direction = 0 ∧ s.l = c ∧ s.r = c) ∨
  (s.direction = 1 ∧ s.r = c ∧ s.l < c ∧ -127 ≤ s.l) ∨
  (s.direction = -1 ∧ s.l = c ∧ s.r < c ∧ -127 ≤ s.r)

/-- A bound on the rounds the stationary loop can still make with a change of state. -/
def stationaryLeft (s : RotState) : Nat :=
  if s.direction = 0 then 128
  else if s.direction = 1 then (127 - s.r).toNat
  else (127 - s.l).toNat

/-- A bound on the rounds the forward loop can still make with a change of state. -/
def forwardLeft (s : RotState) : Nat := (254 - s.l - s.r).toNat

/-- A bound on the rounds the backward loop can still make with a change of state. -/
def backwardLeft (s : RotState) : Nat := (254 + s.l + s.r).toNat

/-- The character of a hexadecimal digit, in lower case when `lower` is set. -/
def hexDigitCharIn (lower : Bool) (d : Nat) : Int :=
  if d < 10 then 48 + (d : Int) else if lower = true then 87 + (d : Int) else 55 + (d : Int)

/-- The number `n` written with `w` hexadecimal digits, most significant first; the
digit at position `i` from the left is in lower case when `lower i` is set. -/
def hexDigitsIn (lower : Nat → Bool) : Nat → Nat → List Int
  | 0, _ => []
  | w + 1, n => hexDigitsIn lower w (n / 16) ++ [hexDigitCharIn (lower w) (n % 16)]

/-- A number as it stands in a field of the answer to the IR query: `pad` blanks, the
`value` written with `width` hexadecimal digits in the cases `lower` selects, and
`trail` blanks. -/
structure IrNumber where
  pad : Nat
  width : Nat
  trail : Nat
  lower : Nat → Bool
  value : Nat

/-- The characters of the field. -/
def IrNumber.text (f : IrNumber) : List Int :=
  List.replicate f.pad 32 ++ (hexDigitsIn f.lower f.width f.value ++ List.replicate f.trail 32)

/-- The field is 8 characters wide, has at least one digit, its digits write `value`,
and `value` is below `2^31`. -/
def IrNumber.Fits (f : IrNumber) : Prop :=
  f.pad + f.width + f.trail = 8 ∧ 1 ≤ f.width ∧ f.value < 16 ^ f.width ∧
    f.value < 2147483648

/-- The field `"7FFFffff"`: eight digits in mixed case. -/
def irSample0 : IrNumber :=
  { pad := 0, width := 8, trail := 0, lower := fun i => decide (4 ≤ i), value := 2147483647 }

/-- The field `"      14"`: the digits at the end of the field. -/
def irSample1 : IrNumber :=
  { pad := 6, width := 2, trail := 0, lower := fun _ => false, value := 20 }

/-- The field `"    1e  "`: lower-case digits between blanks. -/
def irSample2 : IrNumber :=
  { pad := 4, width := 2, trail := 2, lower := fun _ => true, value := 30 }

/-- The field `"28      "`: the digits at the start of the field. -/
def irSample3 : IrNumber :=
  { pad := 0, width := 2, trail := 6, lower := fun _ => false, value := 40 }

/-! Theorems. -/

/-! ## Facts about the velocity curve -/

theorem toSChar_of_range (n : Int) (h1 : -128 ≤ n) (h2 : n ≤ 127) : toSChar n = n := by
  unfold toSChar; omega

theorem calc_forward_pos (k : Int) (h1 : 20 ≤ k) (h2 : k ≤ 127) :
    calc_forward k = curve k := by
  have hk : toUChar k = k := by unfold toUChar; omega
  have h0 : k > 0 := by omega
  simp only [calc_forward, if_pos h0, hk, if_neg (not_lt.mpr h1), curve]

theorem calc_forward_neg (k : Int) (h1 : 20 ≤ k) (h2 : k ≤ 127) :
    calc_forward (-k) = -curve k := by
  have hk : toUChar k = k := by unfold toUChar; omega
  have h0 : ¬ (-k > 0) := by omega
  simp only [calc_forward, if_neg h0, neg_neg, hk, if_neg (not_lt.mpr h1), curve]

theorem calc_forward_dead (k : Int) (h1 : -20 < k) (h2 : k < 20) : calc_forward k = 0 := by
  have : toUChar (if k > 0 then k else -k) < 20 := by
    unfold toUChar; split <;> omega
  simp only [calc_forward, if_pos this]

theorem curve_step (k : Int) : curve k < curve (k + 1) := by
  have h : curve (k + 1) - curve k
      = (165831 * (k : ℚ) * k - 32356169 * k + 1611794277) / 100000000000 := by
    simp only [curve]; push_cast; ring
  have hpos : (0 : ℚ) < 165831 * (k : ℚ) * k - 32356169 * k + 1611794277 := by
    nlinarith [sq_nonneg (2 * 165831 * (k : ℚ) - 32356169)]
  have : 0 < curve (k + 1) - curve k := by rw [h]; positivity
  linarith

theorem curve_strictMono : StrictMono curve := strictMono_int_of_lt_succ curve_step

theorem curve_20 : curve 20 = 368816 / 100000000 := by norm_num [curve]
theorem curve_127 : curve 127 > 315 / 1000 := by norm_num [curve]

/-- The scan of `calc_speed_hackish` started at a code whose velocity does not exceed
the target stops at the last such code. -/
theorem speedScan_spec (dx : ℚ) (hhi : |dx| ≤ 315 / 1000) :
    ∀ (fuel : Nat) (cur : Int), 20 ≤ cur → cur ≤ 126 → 127 - cur ≤ (fuel : Int) →
      curve cur ≤ |dx| →
      ∃ m : Int, cur ≤ m ∧ m ≤ 126 ∧ curve m ≤ |dx| ∧ |dx| < curve (m + 1) ∧
        speedScan dx fuel cur = some (if dx < 0 then -m else m) := by
  intro fuel
  induction fuel with
  | zero => intro cur _ h2 h3 _; simp at h3; omega
  | succ n ih =>
    intro cur h1 h2 h3 h4
    have hc : toSChar (cur + 1) = cur + 1 := toSChar_of_range _ (by omega) (by omega)
    have hf : calc_forward (cur + 1) = curve (cur + 1) :=
      calc_forward_pos _ (by omega) (by omega)
    simp only [speedScan, hc, hf]
    by_cases hgt : curve (cur + 1) > |dx|
    · refine ⟨cur, le_refl _, h2, h4, hgt, ?_⟩
      rw [if_pos hgt]
      congr 1
      split
      · rw [toSChar_of_range _ (by omega) (by omega)]; ring
      · rw [toSChar_of_range _ (by omega) (by omega)]; ring
    · rw [if_neg hgt]
      have hle : curve (cur + 1) ≤ |dx| := not_lt.mp hgt
      have hlt : cur + 1 ≤ 126 := by
        by_contra hcon
        have h127 : cur + 1 = 127 := by omega
        rw [h127] at hle
        have := curve_127
        linarith
      obtain ⟨m, hm1, hm2, hm3, hm4, hm5⟩ :=
        ih (cur + 1) (by omega) hlt (by push_cast at h3; omega) hle
      exact ⟨m, by omega, hm2, hm3, hm4, hm5⟩

/-- C1: for every velocity `v` with `0.05 ≤ |v| ≤ 0.315`, `calc_speed_hackish v` returns
a code `c` with `|calc_forward c| ≤ |v| < calc_forward (|c| + 1)`, `c` has the sign of
`v`, and no code magnitude up to 127 above `|c|` has a forward velocity within `|v|`. -/
theorem calc_speed_hackish_largest_code (v : ℚ) (hlo : 5 / 100 ≤ |v|)
    (hhi : |v| ≤ 315 / 1000) :
    ∃ c : Int, calc_speed_hackish v = some c ∧
      |calc_forward c| ≤ |v| ∧ calc_forward (|c| + 1) > |v| ∧
      (0 < v → 0 < c) ∧ (v < 0 → c < 0) ∧
      ∀ k : Int, 0 ≤ k → k ≤ 127 → calc_forward k ≤ |v| → k ≤ |c| := by
  have h20 : curve 20 ≤ |v| := by rw [curve_20]; linarith
  obtain ⟨m, hm1, hm2, hm3, hm4, hm5⟩ :=
    speedScan_spec v hhi 256 20 (le_refl _) (by norm_num) (by norm_num) h20
  have hscan : calc_speed_hackish v = some (if v < 0 then -m else m) := by
    unfold calc_speed_hackish SRV1_MAX_VEL_X
    rw [if_neg (not_lt.mpr hhi), if_neg (not_lt.mpr hlo)]
    exact hm5
  have hcm : 0 ≤ curve m := by
    have := curve_strictMono.monotone hm1
    rw [curve_20] at this
    linarith
  have hmax : ∀ k : Int, 0 ≤ k → k ≤ 127 → calc_forward k ≤ |v| → k ≤ m := by
    intro k _ hk2 hk3
    by_contra hcon
    have hk : m + 1 ≤ k := by omega
    rw [calc_forward_pos k (by omega) hk2] at hk3
    have := curve_strictMono.monotone hk
    linarith
  have hvne : v ≠ 0 := by
    intro h0
    rw [h0, abs_zero] at hlo
    norm_num at hlo
  by_cases hneg : v < 0
  · refine ⟨-m, by rw [hscan, if_pos hneg], ?_, ?_, ?_, ?_, ?_⟩
    · rw [calc_forward_neg m (by omega) (by omega), abs_neg, abs_of_nonneg hcm]; exact hm3
    · rw [abs_neg, abs_of_nonneg (by omega : (0 : Int) ≤ m),
        calc_forward_pos _ (by omega) (by omega)]
      exact hm4
    · intro hpos; linarith
    · intro _; omega
    · intro k hk1 hk2 hk3
      rw [abs_neg, abs_of_nonneg (by omega : (0 : Int) ≤ m)]
      exact hmax k hk1 hk2 hk3
  · have hpos : 0 < v := lt_of_le_of_ne (not_lt.mp hneg) (Ne.symm hvne)
    refine ⟨m, by rw [hscan, if_neg hneg], ?_, ?_, ?_, ?_, ?_⟩
    · rw [calc_forward_pos m (by omega) (by omega), abs_of_nonneg hcm]; exact hm3
    · rw [abs_of_nonneg (by omega : (0 : Int) ≤ m),
        calc_forward_pos _ (by omega) (by omega)]
      exact hm4
    · intro _; omega
    · intro h; exact absurd h hneg
    · intro k hk1 hk2 hk3
      rw [abs_of_nonneg (by omega : (0 : Int) ≤ m)]
      exact hmax k hk1 hk2 hk3

/-- C1 at `v = 0.2`. -/
theorem calc_speed_hackish_largest_code_witness :
    ∃ c : Int, calc_speed_hackish (1 / 5) = some c ∧
      |calc_forward c| ≤ |(1 / 5 : ℚ)| ∧ calc_forward (|c| + 1) > |(1 / 5 : ℚ)| ∧
      (0 < (1 / 5 : ℚ) → 0 < c) ∧ ((1 / 5 : ℚ) < 0 → c < 0) ∧
      ∀ k : Int, 0 ≤ k → k ≤ 127 → calc_forward k ≤ |(1 / 5 : ℚ)| → k ≤ |c| :=
  calc_speed_hackish_largest_code (1 / 5) (by norm_num [abs_of_pos]) (by norm_num [abs_of_pos])

/-! ## The rotation search from rest -/

theorem runLoop_mono {σ : Type} (body : σ → Step σ) (n k : Nat) (s t : σ)
    (h : runLoop body n s = some t) : runLoop body (n + k) s = some t := by
  induction n generalizing s with
  | zero => simp [runLoop] at h
  | succ n ih =>
    rw [Nat.succ_add]
    simp only [runLoop] at h ⊢
    cases hb : body s with
    | done s1 => rw [hb] at h; exact h
    | next s1 => rw [hb] at h; exact ih s1 h

theorem calc_angular_rest : calc_angular 0 0 = 0 := by
  norm_num [calc_angular]

/-- First round of the stationary loop for a positive target: the wheels snap to
`(-21, 21)`. -/
theorem rotStationary_first (dw : ℚ) (h : 0 < dw) :
    rotStationary dw { l := 0, r := 0, direction := 0 }
      = .next { l := -21, r := 21, direction := 1 } := by
  have h1 : ¬ (0 : ℚ) > dw := not_lt.mpr h.le
  simp [rotStationary, rotStationarySecond, calc_angular_rest, h, h1]

/-- A later round of the stationary loop for a positive target, from `(-k, k)`. -/
theorem rotStationary_round (dw : ℚ) (k : Int) (h1 : 21 ≤ k) (h2 : k ≤ 126) :
    rotStationary dw { l := -k, r := k, direction := 1 } =
      if calc_angular (-k) k < dw then .next { l := -(k + 1), r := k + 1, direction := 1 }
      else if calc_angular (-k) k > dw then .done { l := -k, r := k, direction := 1 }
      else .next { l := -k, r := k, direction := 1 } := by
  have hc : (-k > -127 ∧ -k < 127 ∧ k > -127 ∧ k < 127) := by omega
  have hr : ¬ k < 20 := by omega
  simp only [rotStationary, hc, and_self, if_true]
  by_cases hlt : calc_angular (-k) k < dw
  · have hgt : ¬ calc_angular (-k) k > dw := not_lt.mpr hlt.le
    simp [rotStationarySecond, hlt, hgt, hr]
    ring
  · simp [rotStationarySecond, hlt]

theorem rotStationary_last (dw : ℚ) :
    rotStationary dw { l := -127, r := 127, direction := 1 }
      = .done { l := -127, r := 127, direction := 1 } := by
  simp [rotStationary]

/-- Whatever the stationary loop returns from `(-k, k)` is again a pair `(-m, m)`. -/
theorem runLoop_rotStationary_shape (dw : ℚ) :
    ∀ (fuel : Nat) (k : Int) (s : RotState), 21 ≤ k → k ≤ 127 →
      runLoop (rotStationary dw) fuel { l := -k, r := k, direction := 1 } = some s →
      ∃ m : Int, 21 ≤ m ∧ m ≤ 127 ∧ s = { l := -m, r := m, direction := 1 } := by
  intro fuel
  induction fuel with
  | zero => intro k s _ _ h; simp [runLoop] at h
  | succ n ih =>
    intro k s h1 h2 h
    rcases eq_or_lt_of_le h2 with h127 | hlt
    · subst h127
      simp only [runLoop, rotStationary_last] at h
      exact ⟨127, by norm_num, by norm_num, (Option.some.inj h).symm⟩
    · have h126 : k ≤ 126 := by omega
      simp only [runLoop, rotStationary_round dw k h1 h126] at h
      split_ifs at h with ha hb
      · exact ih (k + 1) s (by omega) (by omega) h
      · exact ⟨k, h1, h2, (Option.some.inj h).symm⟩
      · exact ih k s h1 h2 h

/-- The stationary loop stops when the target is not met exactly on the way. -/
theorem runLoop_rotStationary_stops (dw : ℚ)
    (hne : ∀ k : Int, 21 ≤ k → k ≤ 126 → calc_angular (-k) k ≠ dw) :
    ∀ (fuel : Nat) (k : Int), 21 ≤ k → k ≤ 127 → 128 - k ≤ (fuel : Int) →
      ∃ s, runLoop (rotStationary dw) fuel { l := -k, r := k, direction := 1 } = some s := by
  intro fuel
  induction fuel with
  | zero => intro k _ h2 h3; simp at h3; omega
  | succ n ih =>
    intro k h1 h2 h3
    rcases eq_or_lt_of_le h2 with h127 | hlt
    · subst h127
      exact ⟨{ l := -127, r := 127, direction := 1 }, by simp only [runLoop, rotStationary_last]⟩
    · have h126 : k ≤ 126 := by omega
      simp only [runLoop, rotStationary_round dw k h1 h126]
      split_ifs with ha hb
      · exact ih (k + 1) (by omega) (by omega) (by push_cast at h3; omega)
      · exact ⟨_, rfl⟩
      · exact absurd (le_antisymm (not_lt.mp hb) (not_lt.mp ha)) (hne k h1 h126)

theorem sysRead_writes (p : Port) (count : Nat) : (sysRead p count).2.writes = p.writes := by
  simp only [sysRead]
  split_ifs <;> rfl

theorem sysWrite_writes (p : Port) (bytes : List Int) :
    (sysWrite p bytes).2.writes = p.writes ++ [bytes] := by
  unfold sysWrite
  split_ifs <;> rfl

theorem readLoop_writes (bytes microsecs : Int) (start : Nat) :
    ∀ (fuel : Nat) (p : Port) (n : Int) (acc : List Int),
      (readLoop bytes microsecs start fuel p n acc).2.2.writes = p.writes := by
  intro fuel
  induction fuel with
  | zero => intro p n acc; rfl
  | succ k ih =>
    intro p n acc
    unfold readLoop
    split_ifs with h
    · rfl
    · have hw := sysRead_writes p (n % 18446744073709551616).toNat
      rcases hr : sysRead p (n % 18446744073709551616).toNat with ⟨res, p1⟩
      rw [hr] at hw
      cases res with
      | error => exact hw
      | eagain => simp only; rw [ih]; exact hw
      | data bs =>
        simp only
        split_ifs
        · exact hw
        · rw [ih]; exact hw

theorem read_limited_writes (p : Port) (bytes microsecs : Int) :
    (read_limited p bytes microsecs).2.2.writes = p.writes :=
  readLoop_writes _ _ _ _ _ _ _

/-- The function `srv1_set_motors` hands exactly one byte string to `write`: the
command `'M', l, r, 0`. -/
theorem srv1_set_motors_writes (p : Port) (l r : Int) :
    (srv1_set_motors p l r).2.writes = p.writes ++ [[77, l, r, 0]] := by
  unfold srv1_set_motors
  simp only
  split_ifs <;> simp only [read_limited_writes, sysWrite_writes]


theorem calc_rot_hackish_rest_eq (fuel : Nat) (dw : ℚ) (h : 5 / 100 ≤ dw) :
    calc_rot_hackish (fuel + 1) dw 0 0 =
      match runLoop (rotStationary dw) fuel { l := -21, r := 21, direction := 1 } with
      | none => none
      | some s => some (toSChar s.l, toSChar s.r) := by
  have hpos : 0 < dw := by linarith
  have habs : ¬ |dw| < 5 / 100 := by rw [abs_of_pos hpos]; exact not_lt.mpr h
  simp only [calc_rot_hackish, if_neg habs, if_true, runLoop, rotStationary_first dw hpos]

/-- The function `srv1_set_speed` once the two searches have returned. -/
theorem srv1_set_speed_eq (fuel : Nat) (x : srv1_comm_t) (dx dw : ℚ) (p : Port)
    (c l r : Int) (hc : calc_speed_hackish dx = some c)
    (hr : calc_rot_hackish fuel dw c c = some (l, r)) :
    srv1_set_speed fuel x dx dw p =
      some ((srv1_set_motors p l r).1,
        { x with vx := calc_forward c, va := calc_angular l r },
        (srv1_set_motors p l r).2) := by
  simp only [srv1_set_speed, hc, hr]

/-- C2: from rest, a target `dw ≥ 0.05` on which the search stops yields `left < 0 < right`
with `left = -right`; the search does stop, within 108 rounds, unless it meets the target
exactly on the way; a target `0 < dw < 0.05` leaves `(0, 0)`; and `srv1_set_speed(0, 0.5)`
hands `write` the one command `'M', -26, 26, 0`. -/
theorem calc_rot_hackish_from_rest :
    (∀ (dw : ℚ) (fuel : Nat) (l r : Int), 5 / 100 ≤ dw →
        calc_rot_hackish fuel dw 0 0 = some (l, r) → l < 0 ∧ 0 < r ∧ l = -r) ∧
    (∀ (dw : ℚ) (fuel : Nat), 5 / 100 ≤ dw → 108 ≤ fuel →
        (∀ k : Int, 21 ≤ k → k ≤ 126 → calc_angular (-k) k ≠ dw) →
        ∃ l r, calc_rot_hackish fuel dw 0 0 = some (l, r)) ∧
    (∀ (dw : ℚ) (fuel : Nat), 0 < dw → dw < 5 / 100 →
        calc_rot_hackish fuel dw 0 0 = some (0, 0)) ∧
    (∀ (fuel : Nat) (x : srv1_comm_t) (p : Port), 7 ≤ fuel →
        ∃ ret x1 p1 l r, srv1_set_speed fuel x 0 (1 / 2) p = some (ret, x1, p1) ∧
          p1.writes = p.writes ++ [[77, l, r, 0]] ∧ l < 0 ∧ 0 < r ∧ l = -r) := by
  refine ⟨?_, ?_, ?_, ?_⟩
  · intro dw fuel l r h hret
    cases fuel with
    | zero =>
      have hpos : 0 < dw := by linarith
      have habs : ¬ |dw| < 5 / 100 := by rw [abs_of_pos hpos]; exact not_lt.mpr h
      simp [calc_rot_hackish, if_neg habs, runLoop] at hret
    | succ n =>
      rw [calc_rot_hackish_rest_eq n dw h] at hret
      cases hrun : runLoop (rotStationary dw) n { l := -21, r := 21, direction := 1 } with
      | none => rw [hrun] at hret; exact absurd hret (by simp)
      | some s =>
        rw [hrun] at hret
        obtain ⟨m, hm1, hm2, hs⟩ :=
          runLoop_rotStationary_shape dw n 21 s (by norm_num) (by norm_num) hrun
        subst hs
        simp only [Option.some.injEq, Prod.mk.injEq] at hret
        rw [toSChar_of_range _ (by omega) (by omega),
          toSChar_of_range _ (by omega) (by omega)] at hret
        omega
  · intro dw fuel h hfuel hne
    obtain ⟨n, rfl⟩ : ∃ n, fuel = n + 1 := ⟨fuel - 1, by omega⟩
    rw [calc_rot_hackish_rest_eq n dw h]
    obtain ⟨s, hs⟩ := runLoop_rotStationary_stops dw hne n 21 (by norm_num) (by norm_num)
      (by push_cast; omega)
    rw [hs]
    exact ⟨_, _, rfl⟩
  · intro dw fuel h1 h2
    have habs : |dw| < 5 / 100 := by rw [abs_of_pos h1]; exact h2
    simp only [calc_rot_hackish, if_pos habs]
  · intro fuel x p hfuel
    have hspeed : calc_speed_hackish 0 = some 0 := by decide!
    have hrot7 : runLoop (rotStationary (1 / 2)) 7 { l := 0, r := 0, direction := 0 }
        = some { l := -26, r := 26, direction := 1 } := by decide!
    have hrot : calc_rot_hackish fuel (1 / 2) 0 0 = some (-26, 26) := by
      obtain ⟨k, rfl⟩ : ∃ k, fuel = 7 + k := ⟨fuel - 7, by omega⟩
      have habs : ¬ |(1 / 2 : ℚ)| < 5 / 100 := by norm_num [abs_of_pos]
      simp only [calc_rot_hackish, if_neg habs, if_true, runLoop_mono _ 7 k _ _ hrot7]
      decide
    exact ⟨_, _, _, -26, 26, srv1_set_speed_eq fuel x 0 (1 / 2) p 0 (-26) 26 hspeed hrot,
      srv1_set_motors_writes p (-26) 26, by norm_num, by norm_num, by norm_num⟩

/-- C2 at `dw = 0.5`: the search returns `(-26, 26)`. -/
theorem calc_rot_hackish_from_rest_witness :
    calc_rot_hackish 7 (1 / 2) 0 0 = some (-26, 26) ∧
      ((-26 : Int) < 0 ∧ (0 : Int) < 26 ∧ (-26 : Int) = -26) :=
  ⟨by decide!, calc_rot_hackish_from_rest.1 (1 / 2) 7 (-26) 26 (by norm_num) (by decide!)⟩

/-! ## Setting the speed -/

/-- The scan of `calc_speed_hackish` always returns. -/
theorem calc_speed_hackish_total (dx : ℚ) : ∃ c : Int, calc_speed_hackish dx = some c := by
  by_cases h1 : |dx| > SRV1_MAX_VEL_X
  · exact ⟨if dx > 0 then 127 else -127, by simp only [calc_speed_hackish, if_pos h1]⟩
  · by_cases h2 : |dx| < 5 / 100
    · exact ⟨0, by simp only [calc_speed_hackish, if_neg h1, if_pos h2]⟩
    · obtain ⟨c, hc, _⟩ := calc_speed_hackish_largest_code dx (not_lt.mp h2)
        (by unfold SRV1_MAX_VEL_X at h1; exact not_lt.mp h1)
      exact ⟨c, hc⟩

/-- C3: for every `dx` and every `dw` with `|dw| < 0.05`, `srv1_set_speed(dx, dw)` returns
and hands `write` exactly one byte string, `'M', c, c, 0` with
`c = calc_speed_hackish(dx)`. -/
theorem srv1_set_speed_straight (dx dw : ℚ) (hdw : |dw| < 5 / 100) (fuel : Nat)
    (x : srv1_comm_t) (p : Port) :
    ∃ c ret x1 p1, calc_speed_hackish dx = some c ∧
      srv1_set_speed fuel x dx dw p = some (ret, x1, p1) ∧
      p1.writes = p.writes ++ [[77, c, c, 0]] := by
  obtain ⟨c, hc⟩ := calc_speed_hackish_total dx
  have hrot : calc_rot_hackish fuel dw c c = some (c, c) := by
    simp only [calc_rot_hackish, if_pos hdw]
  exact ⟨c, _, _, _, hc, srv1_set_speed_eq fuel x dx dw p c c c hc hrot,
    srv1_set_motors_writes p c c⟩

/-- C3 at `srv1_set_speed(0.2, 0.0)` on a fresh device. -/
theorem srv1_set_speed_straight_witness :
    ∃ c ret x1 p1, calc_speed_hackish (1 / 5) = some c ∧
      srv1_set_speed 0 srv1_create (1 / 5) 0 (portWith [35, 77]) = some (ret, x1, p1) ∧
      p1.writes = (portWith [35, 77]).writes ++ [[77, c, c, 0]] :=
  srv1_set_speed_straight (1 / 5) 0 (by norm_num) 0 srv1_create (portWith [35, 77])

/-- C8, as stated, fails: on a silent line the exchange of `srv1_set_speed(0.2, 0)` times
out and the call returns 0, yet `vx` has changed from 0 to `calc_forward(46)`. -/
theorem srv1_set_speed_failed_exchange_changes_vx :
    (srv1_set_speed 0 srv1_create (1 / 5) 0 silentPort).map
        (fun out => (out.1, out.2.1.vx, out.2.1.va))
      = some (0, 2466395759 / 12500000000, 0) ∧ srv1_create.vx = 0 := by
  decide!

/-- C8, amended: what `srv1_set_speed` leaves in `vx` and `va` does not depend on the
exchange. When a call returns, with 1 or with 0, the device state differs from the prior
one in `vx` and `va` only, and the same request on any other line returns as well and
leaves the very same device state. -/
theorem srv1_set_speed_cache_ignores_exchange (fuel : Nat) (x : srv1_comm_t) (dx dw : ℚ)
    (p : Port) (ret : Int) (x1 : srv1_comm_t) (p1 : Port)
    (h : srv1_set_speed fuel x dx dw p = some (ret, x1, p1)) :
    (ret = 0 ∨ ret = 1) ∧ x1 = { x with vx := x1.vx, va := x1.va } ∧
      ∀ q : Port, ∃ ret2 q1, srv1_set_speed fuel x dx dw q = some (ret2, x1, q1) := by
  obtain ⟨c, hc⟩ := calc_speed_hackish_total dx
  cases hr : calc_rot_hackish fuel dw c c with
  | none => simp [srv1_set_speed, hc, hr] at h
  | some lr =>
    obtain ⟨l, r⟩ := lr
    rw [srv1_set_speed_eq fuel x dx dw p c l r hc hr] at h
    simp only [Option.some.injEq, Prod.mk.injEq] at h
    obtain ⟨hret, hx1, _⟩ := h
    refine ⟨?_, by rw [← hx1], ?_⟩
    · rw [← hret]
      unfold srv1_set_motors
      simp only
      split_ifs <;> simp
    · intro q
      exact ⟨_, _, by rw [srv1_set_speed_eq fuel x dx dw q c l r hc hr, hx1]⟩

/-- C8 at `srv1_set_speed(0.2, 0)` on a silent line: the call returns 0, and on a line
that answers `'#', 'M'` the same request leaves the same state. -/
theorem srv1_set_speed_cache_ignores_exchange_witness :
    ((0 : Int) = 0 ∨ (0 : Int) = 1) ∧
      ({ srv1_create with vx := calc_forward 46 } : srv1_comm_t)
        = { srv1_create with
            vx := ({ srv1_create with vx := calc_forward 46 } : srv1_comm_t).vx,
            va := ({ srv1_create with vx := calc_forward 46 } : srv1_comm_t).va } ∧
      ∀ q : Port, ∃ ret2 q1, srv1_set_speed 0 srv1_create (1 / 5) 0 q
        = some (ret2, { srv1_create with vx := calc_forward 46 }, q1) :=
  srv1_set_speed_cache_ignores_exchange 0 srv1_create (1 / 5) 0 silentPort
    0 { srv1_create with vx := calc_forward 46 }
    { silentPort with clock := 300020, writes := [[77, 46, 46, 0]] } (by decide!)


/-- C9, as stated, fails: `srv1_set_speed(0, 0.5)` from rest sends the final codes
`(-26, 26)` but caches `vx = 0`, which is `calc_forward` of the code 0 chosen before the
rotation search and not `calc_forward(-26)`. -/
theorem srv1_set_speed_vx_not_from_final_codes :
    (srv1_set_speed 7 srv1_create 0 (1 / 2) (portWith [35, 77])).map
        (fun out => (out.1, out.2.1.vx, out.2.2.writes))
      = some (1, 0, [[77, -26, 26, 0]]) ∧ calc_forward (-26) ≠ 0 := by
  decide!

/-- C9, amended: once the code `c = calc_speed_hackish(dx)` is chosen and the rotation
search has returned the final codes `(l, r)`, `srv1_set_speed(dx, dw)` returns, the command
written carries `(l, r)`, the cached `va` is `calc_angular l r`, and the cached `vx` is
`calc_forward c`, the velocity of the code chosen before the rotation search. -/
theorem srv1_set_speed_cached_velocities (fuel : Nat) (x : srv1_comm_t) (dx dw : ℚ)
    (p : Port) (c l r : Int) (hc : calc_speed_hackish dx = some c)
    (hr : calc_rot_hackish fuel dw c c = some (l, r)) :
    ∃ ret x1 p1, srv1_set_speed fuel x dx dw p = some (ret, x1, p1) ∧
      p1.writes = p.writes ++ [[77, l, r, 0]] ∧
      x1.va = calc_angular l r ∧ x1.vx = calc_forward c :=
  ⟨_, _, _, srv1_set_speed_eq fuel x dx dw p c l r hc hr, srv1_set_motors_writes p l r,
    rfl, rfl⟩

/-- C9 at `srv1_set_speed(0, 0.5)` from rest. -/
theorem srv1_set_speed_cached_velocities_witness :
    ∃ ret x1 p1, srv1_set_speed 7 srv1_create 0 (1 / 2) (portWith [35, 77])
        = some (ret, x1, p1) ∧
      p1.writes = (portWith [35, 77]).writes ++ [[77, -26, 26, 0]] ∧
      x1.va = calc_angular (-26) 26 ∧ x1.vx = calc_forward 0 :=
  srv1_set_speed_cached_velocities 7 srv1_create 0 (1 / 2) (portWith [35, 77]) 0 (-26) 26
    (by decide!) (by decide!)

/-! ## Termination of the rotation search -/

theorem runLoop_stuck {σ : Type} (body : σ → Step σ) (s : σ) (h : body s = .next s) :
    ∀ fuel : Nat, runLoop body fuel s = none := by
  intro fuel
  induction fuel with
  | zero => rfl
  | succ n ih => simp only [runLoop, h, ih]

/-- C10 fails on the code: with the wheels at rest and the target equal to the angular
velocity of the pair `(-21, 21)`, the search reaches `(-21, 21)`, neither `angular < dx`
nor `angular > dx` holds there, and every further round leaves the state as it is: no
amount of fuel makes the search return. -/
theorem calc_rot_hackish_spins_on_exact_target :
    calc_angular (-21) 21 = 1399819297 / 11700000000 ∧
      ∀ fuel : Nat, calc_rot_hackish fuel (1399819297 / 11700000000) 0 0 = none := by
  have hval : calc_angular (-21) 21 = 1399819297 / 11700000000 := by decide!
  refine ⟨hval, ?_⟩
  intro fuel
  have habs : ¬ |(1399819297 / 11700000000 : ℚ)| < 5 / 100 := by norm_num [abs_of_pos]
  have hstuck : rotStationary (1399819297 / 11700000000)
      { l := -21, r := 21, direction := 1 } = .next { l := -21, r := 21, direction := 1 } := by
    rw [rotStationary_round _ 21 (by norm_num) (by norm_num), hval]
    simp
  cases fuel with
  | zero => simp [calc_rot_hackish, if_neg habs, runLoop]
  | succ n =>
    rw [calc_rot_hackish_rest_eq n _ (by norm_num), runLoop_stuck _ _ hstuck]

/-! ## The IR query -/

theorem hexDigitChar_val (d : Nat) (h : d < 16) : hexDigitVal (hexDigitChar d) = some d := by
  interval_cases d <;> decide

theorem hexDigitChar_isHex (d : Nat) (h : d < 16) : isHexDigit (hexDigitChar d) = true := by
  simp [isHexDigit, hexDigitChar_val d h]

theorem isHexDigit_range (c : Int) (h : isHexDigit c = true) : 48 ≤ c ∧ c ≤ 102 := by
  unfold isHexDigit hexDigitVal at h
  split_ifs at h <;> first | omega | simp at h

theorem hexDigits_length (w n : Nat) : (hexDigits w n).length = w := by
  induction w generalizing n with
  | zero => rfl
  | succ w ih => simp [hexDigits, ih]

theorem hexDigits_isHex (w n : Nat) : ∀ c ∈ hexDigits w n, isHexDigit c = true := by
  induction w generalizing n with
  | zero => intro c hc; simp [hexDigits] at hc
  | succ w ih =>
    intro c hc
    simp only [hexDigits, List.mem_append, List.mem_singleton] at hc
    rcases hc with hc | hc
    · exact ih _ c hc
    · rw [hc]; exact hexDigitChar_isHex _ (Nat.mod_lt _ (by norm_num))

theorem hexValue_append (ds : List Int) (c : Int) :
    hexValue (ds ++ [c]) = hexValue ds * 16 + (hexDigitVal c).getD 0 := by
  simp [hexValue, List.foldl_append]

theorem hexValue_hexDigits (w n : Nat) : hexValue (hexDigits w n) = n % 16 ^ w := by
  induction w generalizing n with
  | zero => simp [hexDigits, hexValue, Nat.mod_one]
  | succ w ih =>
    rw [hexDigits, hexValue_append, ih, hexDigitChar_val _ (Nat.mod_lt _ (by norm_num))]
    simp only [Option.getD_some]
    rw [pow_succ, Nat.mul_comm (16 ^ w) 16, Nat.mod_mul]
    ring

theorem dropWhile_blanks (k : Nat) (s : List Int) (h : ∀ c, s.head? = some c → isSpace c = false) :
    (List.replicate k 32 ++ s).dropWhile isSpace = s := by
  induction k with
  | zero =>
    cases s with
    | nil => rfl
    | cons c t => simp [List.dropWhile, h c rfl]
  | succ k ih =>
    have h32 : isSpace 32 = true := by decide
    simp only [List.replicate_succ, List.cons_append, List.dropWhile_cons, h32, if_true]
    exact ih

theorem isHexDigit_not_space (c : Int) (h : isHexDigit c = true) : isSpace c = false := by
  have := isHexDigit_range c h
  simp only [isSpace, decide_eq_false_iff_not]
  omega

theorem dropSign_digits (c : Int) (t : List Int) (h : isHexDigit c = true) :
    dropSign (c :: t) = (false, c :: t) := by
  have := isHexDigit_range c h
  have h1 : c ≠ 45 := by omega
  have h2 : c ≠ 43 := by omega
  simp [dropSign, h1, h2]

theorem dropHexPrefix_digits (ds rest : List Int) (hne : ds ≠ [])
    (hds : ∀ c ∈ ds, isHexDigit c = true) (hrest : Delimited rest) :
    dropHexPrefix (ds ++ rest) = ds ++ rest := by
  match ds, hne, hds with
  | [d], _, _ =>
    rcases hrest with h | ⟨c, h, _⟩ | ⟨t, h⟩
    · subst h; rfl
    · subst h; rfl
    · subst h
      cases t with
      | nil => rfl
      | cons h t => simp [dropHexPrefix]
  | d :: e :: ds1, _, hds =>
    cases hrem : ds1 ++ rest with
    | nil => simp [dropHexPrefix, hrem]
    | cons h t =>
      have h1 : e ≠ 120 := by
        intro h120; rw [h120] at hds; exact absurd (hds 120 (by simp)) (by decide)
      have h2 : e ≠ 88 := by
        intro h88; rw [h88] at hds; exact absurd (hds 88 (by simp)) (by decide)
      simp [dropHexPrefix, hrem, h1, h2]

theorem takeWhile_digits (ds rest : List Int) (hds : ∀ c ∈ ds, isHexDigit c = true)
    (hrest : Delimited rest) : (ds ++ rest).takeWhile isHexDigit = ds := by
  induction ds with
  | nil =>
    rcases hrest with h | ⟨c, h, hc⟩ | ⟨t, h⟩
    · subst h; rfl
    · subst h; simp [List.takeWhile, hc]
    · subst h
      have : isHexDigit 32 = false := by decide
      simp [List.takeWhile, this]
  | cons d ds ih =>
    have hd := hds d (by simp)
    simp only [List.cons_append, List.takeWhile_cons, hd, if_true]
    rw [ih (fun c hc => hds c (by simp [hc]))]

/-- What `%x` reads from a blank-padded run of hexadecimal digits that is followed by
a delimiter: the number the digits write. -/
theorem scanHex_digits (k : Nat) (ds rest : List Int) (hne : ds ≠ [])
    (hds : ∀ c ∈ ds, isHexDigit c = true) (hrest : Delimited rest)
    (hval : hexValue ds < 2147483648) :
    scanHex (List.replicate k 32 ++ (ds ++ rest)) = some (hexValue ds : Int) := by
  obtain ⟨d, ds1, rfl⟩ : ∃ d ds1, ds = d :: ds1 := by
    cases ds with
    | nil => exact absurd rfl hne
    | cons d ds1 => exact ⟨d, ds1, rfl⟩
  have hd := hds d (by simp)
  have hdrop : (List.replicate k 32 ++ (d :: ds1 ++ rest)).dropWhile isSpace
      = d :: ds1 ++ rest :=
    dropWhile_blanks k _ (fun c hc => by
      simp only [List.cons_append, List.head?_cons, Option.some.injEq] at hc
      rw [← hc]; exact isHexDigit_not_space d hd)
  have hsign : dropSign (d :: ds1 ++ rest) = (false, d :: ds1 ++ rest) :=
    dropSign_digits d _ hd
  have hfit : ¬ ((hexValue (d :: ds1) : Nat) : Int) > 18446744073709551615 := by
    omega
  simp only [scanHex, hdrop, hsign, dropHexPrefix_digits _ _ hne hds hrest,
    takeWhile_digits _ _ hds hrest, if_neg hfit]
  simp only [List.isEmpty_cons, Bool.false_eq_true, if_false, Option.some.injEq]
  unfold toInt32 toUInt32
  omega


theorem cstr_append (body tail : List Int)
    (h : ∀ c ∈ body, toUChar c = c ∧ c ≠ 0) : cstr (body ++ tail) = body ++ cstr tail := by
  induction body with
  | nil => rfl
  | cons c t ih =>
    obtain ⟨h1, h2⟩ := h c (by simp)
    have ih1 := ih (fun c hc => h c (by simp [hc]))
    unfold cstr at ih1 ⊢
    simp only [List.cons_append, List.map_cons, h1, List.takeWhile_cons, ne_eq, h2,
      not_false_eq_true, decide_True, if_true, ih1]

theorem cstr_last (last : Int) (n : Nat) (h : isHexDigit (toUChar last) = false) :
    Delimited (cstr (last :: List.replicate (n + 1) 0)) := by
  by_cases h0 : toUChar last = 0
  · left
    simp [cstr, h0]
  · right; left
    refine ⟨toUChar last, ?_, h⟩
    have hz : toUChar 0 = 0 := by decide
    simp [cstr, h0, List.replicate_succ, hz]

theorem hexDigitCharIn_val (lower : Bool) (d : Nat) (h : d < 16) :
    hexDigitVal (hexDigitCharIn lower d) = some d := by
  cases lower <;> interval_cases d <;> decide

theorem hexDigitsIn_length (lower : Nat → Bool) (w n : Nat) :
    (hexDigitsIn lower w n).length = w := by
  induction w generalizing n with
  | zero => rfl
  | succ w ih => simp [hexDigitsIn, ih]

theorem hexDigitsIn_isHex (lower : Nat → Bool) (w n : Nat) :
    ∀ c ∈ hexDigitsIn lower w n, isHexDigit c = true := by
  induction w generalizing n with
  | zero => intro c hc; simp [hexDigitsIn] at hc
  | succ w ih =>
    intro c hc
    simp only [hexDigitsIn, List.mem_append, List.mem_singleton] at hc
    rcases hc with hc | hc
    · exact ih _ c hc
    · rw [hc]
      simp [isHexDigit, hexDigitCharIn_val _ _ (Nat.mod_lt n (by norm_num : 0 < 16))]

theorem hexValue_hexDigitsIn (lower : Nat → Bool) (w n : Nat) :
    hexValue (hexDigitsIn lower w n) = n % 16 ^ w := by
  induction w generalizing n with
  | zero => simp [hexDigitsIn, hexValue, Nat.mod_one]
  | succ w ih =>
    rw [hexDigitsIn, hexValue_append, ih, hexDigitCharIn_val _ _ (Nat.mod_lt _ (by norm_num))]
    simp only [Option.getD_some]
    rw [pow_succ, Nat.mul_comm (16 ^ w) 16, Nat.mod_mul]
    ring

theorem text_chars (f : IrNumber) : ∀ c ∈ f.text, toUChar c = c ∧ c ≠ 0 := by
  intro c hc
  simp only [IrNumber.text, List.mem_append, List.mem_replicate] at hc
  rcases hc with ⟨_, hc⟩ | hc | ⟨_, hc⟩
  · subst hc; decide
  · have := isHexDigit_range c (hexDigitsIn_isHex f.lower f.width f.value c hc)
    unfold toUChar
    omega
  · subst hc; decide

theorem text_length (f : IrNumber) (h : f.Fits) : f.text.length = 8 := by
  simp only [IrNumber.text, List.length_append, List.length_replicate, hexDigitsIn_length]
  have := h.1
  omega

theorem delimited_blanks (k : Nat) (rest : List Int) (h : 1 ≤ k ∨ Delimited rest) :
    Delimited (List.replicate k 32 ++ rest) := by
  rcases Nat.eq_zero_or_pos k with hk | hk
  · subst hk
    rcases h with h | h
    · omega
    · simpa using h
  · obtain ⟨j, rfl⟩ : ∃ j, k = j + 1 := ⟨k - 1, by omega⟩
    right; right
    exact ⟨_, by rw [List.replicate_succ, List.cons_append]⟩

theorem text_delimited (f : IrNumber) (rest : List Int) (h : 1 ≤ f.pad) :
    Delimited (f.text ++ rest) := by
  rw [IrNumber.text, List.append_assoc]
  exact delimited_blanks _ _ (Or.inl h)

/-- What `%x` reads at the start of a field whose digits are followed by a delimiter. -/
theorem scanHex_text (f : IrNumber) (rest : List Int) (hf : f.Fits)
    (hrest : Delimited (List.replicate f.trail 32 ++ rest)) :
    scanHex (f.text ++ rest) = some (f.value : Int) := by
  obtain ⟨_, hw, hn, h31⟩ := hf
  have hv : hexValue (hexDigitsIn f.lower f.width f.value) = f.value := by
    rw [hexValue_hexDigitsIn, Nat.mod_eq_of_lt hn]
  have hne : hexDigitsIn f.lower f.width f.value ≠ [] := by
    intro h0
    have := hexDigitsIn_length f.lower f.width f.value
    rw [h0] at this
    simp at this
    omega
  have := scanHex_digits f.pad (hexDigitsIn f.lower f.width f.value)
    (List.replicate f.trail 32 ++ rest) hne (hexDigitsIn_isHex _ _ _) hrest (by rw [hv]; exact h31)
  rw [hv] at this
  rw [IrNumber.text, List.append_assoc, List.append_assoc]
  exact this

theorem strncmp_bounceHeader (rest : List Int) :
    strncmp (bounceHeader.take 13 ++ rest) bounceHeader 13 = 0 := by
  simp [bounceHeader, strncmp, toUChar]


/-- C4, as stated, fails: with the four values 0, 0, 0, 5 written as 8 hexadecimal digits
each, every `%x` reads on through the fields that follow, and `srv1_fill_ir` returns 1
with `bouncedir = (5, 5, 5, 5)` instead of `(0, 0, 0, 5)`. -/
theorem srv1_fill_ir_reads_across_fields :
    (srv1_fill_ir srv1_create (portWith
        (irResponse (hexDigits 8 0) (hexDigits 8 0) (hexDigits 8 0) (hexDigits 8 5) 10))).1 = 1 ∧
    (srv1_fill_ir srv1_create (portWith
        (irResponse (hexDigits 8 0) (hexDigits 8 0) (hexDigits 8 0) (hexDigits 8 5) 10))).2.1.bouncedir
      = (5, 5, 5, 5) := by
  decide!

/-- C4, amended: when the 46-byte answer is the header followed by four 8-character
fields and a last character, each field holds, between blanks that may be missing, the
hexadecimal digits (in either case) of a value below `2^31`, and the digits of each
field are followed by a character that is no hexadecimal digit (a blank of the field, a
blank that opens the next field, or the last character), `srv1_fill_ir` returns 1 and
sets `bouncedir` to the four values in that order. -/
theorem srv1_fill_ir_delimited_fields (x : srv1_comm_t) (p p1 : Port)
    (f0 f1 f2 f3 : IrNumber) (last : Int)
    (h0 : f0.Fits) (h1 : f1.Fits) (h2 : f2.Fits) (h3 : f3.Fits)
    (s01 : 1 ≤ f0.trail ∨ 1 ≤ f1.pad) (s12 : 1 ≤ f1.trail ∨ 1 ≤ f2.pad)
    (s23 : 1 ≤ f2.trail ∨ 1 ≤ f3.pad)
    (s3 : 1 ≤ f3.trail ∨ isHexDigit (toUChar last) = false)
    (hwrite : p.writeFault = false)
    (hread : read_limited (sysWrite p [66]).2 46 500000
      = (46, irResponse f0.text f1.text f2.text f3.text last, p1)) :
    srv1_fill_ir x p
      = (1, { x with bouncedir :=
                ((f0.value : Int), (f1.value : Int), (f2.value : Int), (f3.value : Int)) },
          p1) := by
  have hl0 := text_length f0 h0
  have hl1 := text_length f1 h1
  have hl2 := text_length f2 h2
  have hl3 := text_length f3 h3
  have hw : ¬ (sysWrite p [66]).1 < 0 := by simp [sysWrite, hwrite]
  have hbuf : bufStore (List.replicate 80 0) (irResponse f0.text f1.text f2.text f3.text last)
      = bounceHeader.take 13 ++ (f0.text ++ (f1.text ++ (f2.text ++
          (f3.text ++ (last :: List.replicate 34 0))))) := by
    have hlen : (irResponse f0.text f1.text f2.text f3.text last).length = 46 := by
      simp [irResponse, bounceHeader, hl0, hl1, hl2, hl3]
    unfold bufStore
    rw [hlen, List.take_of_length_le (by rw [hlen, List.length_replicate]; norm_num)]
    simp [irResponse, List.drop_replicate]
  have hend : Delimited (List.replicate f3.trail 32 ++ cstr (last :: List.replicate 34 0)) :=
    delimited_blanks _ _ (s3.imp id (cstr_last last 33))
  have hs3 : sscanfHex (f3.text ++ (last :: List.replicate 34 0)) = some (f3.value : Int) := by
    unfold sscanfHex
    rw [cstr_append _ _ (text_chars f3)]
    exact scanHex_text f3 _ h3 hend
  have hs2 : sscanfHex (f2.text ++ (f3.text ++ (last :: List.replicate 34 0)))
      = some (f2.value : Int) := by
    unfold sscanfHex
    rw [cstr_append _ _ (text_chars f2), cstr_append _ _ (text_chars f3)]
    exact scanHex_text f2 _ h2 (delimited_blanks _ _ (s23.imp id (text_delimited f3 _)))
  have hs1 : sscanfHex (f1.text ++ (f2.text ++ (f3.text ++ (last :: List.replicate 34 0))))
      = some (f1.value : Int) := by
    unfold sscanfHex
    rw [cstr_append _ _ (text_chars f1), cstr_append _ _ (text_chars f2)]
    exact scanHex_text f1 _ h1 (delimited_blanks _ _ (s12.imp id (text_delimited f2 _)))
  have hs0 : sscanfHex (f0.text ++ (f1.text ++ (f2.text ++ (f3.text ++
      (last :: List.replicate 34 0))))) = some (f0.value : Int) := by
    unfold sscanfHex
    rw [cstr_append _ _ (text_chars f0), cstr_append _ _ (text_chars f1)]
    exact scanHex_text f0 _ h0 (delimited_blanks _ _ (s01.imp id (text_delimited f1 _)))
  have hd13 : ∀ t : List Int, (bounceHeader.take 13 ++ t).drop 13 = t := fun t =>
    List.drop_left' (by simp [bounceHeader])
  have hd21 : ∀ t : List Int, (bounceHeader.take 13 ++ (f0.text ++ t)).drop 21 = t := by
    intro t
    rw [← List.append_assoc]
    exact List.drop_left' (by simp [bounceHeader, hl0])
  have hd29 : ∀ t : List Int,
      (bounceHeader.take 13 ++ (f0.text ++ (f1.text ++ t))).drop 29 = t := by
    intro t
    rw [← List.append_assoc, ← List.append_assoc]
    exact List.drop_left' (by simp [bounceHeader, hl0, hl1])
  have hd37 : ∀ t : List Int,
      (bounceHeader.take 13 ++ (f0.text ++ (f1.text ++ (f2.text ++ t)))).drop 37 = t := by
    intro t
    rw [← List.append_assoc, ← List.append_assoc, ← List.append_assoc]
    exact List.drop_left' (by simp [bounceHeader, hl0, hl1, hl2])
  unfold srv1_fill_ir
  simp only [if_neg hw, hread, hbuf, strncmp_bounceHeader, hd13, hd21, hd29, hd37,
    hs0, hs1, hs2, hs3, Option.getD_some, ne_eq, not_true_eq_false, if_false]

/-- C4, amended, at the fields `"7FFFffff"`, `"      14"`, `"    1e  "`, `"28      "`
and a closing newline. -/
theorem srv1_fill_ir_delimited_fields_witness :
    irResponse irSample0.text irSample1.text irSample2.text irSample3.text 10
      = [35, 35, 66, 111, 117, 110, 99, 101, 73, 82, 32, 45, 32,
         55, 70, 70, 70, 102, 102, 102, 102, 32, 32, 32, 32, 32, 32, 49, 52,
         32, 32, 32, 32, 49, 101, 32, 32, 50, 56, 32, 32, 32, 32, 32, 32, 10] ∧
    srv1_fill_ir srv1_create
        (portWith (irResponse irSample0.text irSample1.text irSample2.text irSample3.text 10))
      = (1, { srv1_create with
              bouncedir := (((2147483647 : Nat) : Int), ((20 : Nat) : Int), ((30 : Nat) : Int),
                ((40 : Nat) : Int)) },
          { portWith [] with writes := [[66]] }) :=
  ⟨by decide,
    srv1_fill_ir_delimited_fields srv1_create _ _ irSample0 irSample1 irSample2 irSample3 10
      (by unfold IrNumber.Fits; decide) (by unfold IrNumber.Fits; decide)
      (by unfold IrNumber.Fits; decide) (by unfold IrNumber.Fits; decide)
      (by decide) (by decide) (by decide) (by decide) (by decide) (by decide!)⟩

/-! ## Frame capture -/

theorem sysRead_data_length (p p1 : Port) (count : Nat) (bs : List Int)
    (h : sysRead p count = (.data bs, p1)) : bs.length ≤ count := by
  simp only [sysRead] at h
  split_ifs at h with h1 h2 h3
  · simp at h
  · simp only [Prod.mk.injEq, ReadResult.data.injEq] at h
    rw [← h.1]; simp
  · simp at h
  · simp only [Prod.mk.injEq, ReadResult.data.injEq] at h
    rw [← h.1]
    simp only [List.length_map, List.length_take]
    omega

/-- The function `read_limited` returns -1 or the number of bytes it has stored. -/
theorem readLoop_count (bytes microsecs : Int) (start : Nat) :
    ∀ (fuel : Nat) (p : Port) (n : Int) (acc : List Int), (acc.length : Int) = bytes - n →
      (readLoop bytes microsecs start fuel p n acc).1 = -1 ∨
      (readLoop bytes microsecs start fuel p n acc).1
        = ((readLoop bytes microsecs start fuel p n acc).2.1.length : Int) := by
  intro fuel
  induction fuel with
  | zero => intro p n acc h; right; simp only [readLoop]; omega
  | succ k ih =>
    intro p n acc h
    unfold readLoop
    split_ifs with hdead
    · right; simp only; omega
    · rcases hr : sysRead p (n % 18446744073709551616).toNat with ⟨res, p1⟩
      cases res with
      | error => left; rfl
      | eagain => exact ih _ _ _ h
      | data bs =>
        simp only
        split_ifs with hz
        · right
          simp only [List.length_append]
          push_cast
          omega
        · apply ih
          simp only [List.length_append]
          push_cast
          omega

theorem read_limited_count (p : Port) (bytes microsecs : Int) :
    (read_limited p bytes microsecs).1 = -1 ∨
      (read_limited p bytes microsecs).1 = ((read_limited p bytes microsecs).2.1.length : Int) :=
  readLoop_count _ _ _ _ _ _ _ (by simp)

theorem bufStore_length (buf data : List Int) : (bufStore buf data).length = buf.length := by
  simp only [bufStore, List.length_append, List.length_take, List.length_drop]
  omega

theorem bufStore_getD (buf data : List Int) (i : Nat) (h1 : i < data.length)
    (h2 : i < buf.length) : (bufStore buf data).getD i 0 = data.getD i 0 := by
  unfold bufStore
  rw [List.getD_append _ _ _ _ (by simp; omega)]
  simp [List.getD_eq_getElem?_getD, List.getElem?_take, h2]

theorem captureSpec_length :
    ∀ (fuel : Nat) (tries : Int) (p p2 : Port) (specbuf : List Int),
      captureSpec fuel tries p = (some specbuf, p2) → specbuf.length = 10 := by
  intro fuel
  induction fuel with
  | zero => intro tries p p2 specbuf h; simp [captureSpec] at h
  | succ k ih =>
    intro tries p p2 specbuf h
    simp only [captureSpec] at h
    split_ifs at h with h1 h2 h3
    · simp at h
    · exact ih _ _ _ _ h
    · simp at h
    · simp only [Prod.mk.injEq, Option.some.injEq] at h
      rw [← h.1, bufStore_length, List.length_replicate]

/-- The mode block of `srv1_fill_image` touches nothing but `set_image_mode`, and sets
it to the desired mode if at all. -/
theorem imageModePhase_state (x x1 : srv1_comm_t) (p p1 : Port)
    (h : imageModePhase x p = (some x1, p1)) :
    x1 = { x with set_image_mode := x.image_mode } := by
  simp only [imageModePhase] at h
  split_ifs at h with h1 h2 h3 h4 h5
  all_goals simp only [Prod.mk.injEq, Option.some.injEq] at h
  all_goals first | exact h.1.symm | exact absurd h.1 (by simp) | skip
  · rw [← h.1]
    push_neg at h1
    cases x
    simp_all

theorem frameSizeOf_eq (specbuf : List Int) :
    frameSizeOf specbuf = toUChar (specbuf.getD 6 0) + 256 * toUChar (specbuf.getD 7 0)
      + 65536 * toUChar (specbuf.getD 8 0) + 16777216 * toUChar (specbuf.getD 9 0) := by
  simp only [frameSizeOf, toUInt32, toInt32, toUChar]
  omega



theorem strncmp_imjHeader (specbuf : List Int) (h : specbuf.length = 10) :
    strncmp imjHeader specbuf 5 = 0 ↔ (specbuf.take 5).map toUChar = [35, 35, 73, 77, 74] := by
  match specbuf, h with
  | [b0, b1, b2, b3, b4, _, _, _, _, _], _ =>
    have h35 : toUChar 35 = 35 := by decide
    have h73 : toUChar 73 = 73 := by decide
    have h77 : toUChar 77 = 77 := by decide
    have h74 : toUChar 74 = 74 := by decide
    simp only [imjHeader, strncmp, h35, h73, h77, h74, List.take, List.map, List.cons.injEq,
      and_true]
    generalize toUChar b0 = u0
    generalize toUChar b1 = u1
    generalize toUChar b2 = u2
    generalize toUChar b3 = u3
    generalize toUChar b4 = u4
    by_cases e0 : u0 = 35
    · by_cases e1 : u1 = 35
      · by_cases e2 : u2 = 73
        · by_cases e3 : u3 = 77
          · by_cases e4 : u4 = 74
            · simp [e0, e1, e2, e3, e4]
            · have : (74 : Int) ≠ u4 := fun hh => e4 hh.symm
              simp [e0, e1, e2, e3, e4, this]; omega
          · have : (77 : Int) ≠ u3 := fun hh => e3 hh.symm
            simp [e0, e1, e2, e3, this]; omega
        · have : (73 : Int) ≠ u2 := fun hh => e2 hh.symm
          simp [e0, e1, e2, this]; omega
      · have : (35 : Int) ≠ u1 := fun hh => e1 hh.symm
        simp [e0, e1, this]; omega
    · have : (35 : Int) ≠ u0 := fun hh => e0 hh.symm
      simp [e0, this]; omega

/-- The function `srv1_fill_image` once the mode block and the header read are through
and the header is right. -/
theorem srv1_fill_image_eq (x x1 : srv1_comm_t) (p p1 p2 : Port) (specbuf : List Int)
    (hmode : imageModePhase x p = (some x1, p1))
    (hon : x1.set_image_mode ≠ SRV1_IMAGE_OFF)
    (hspec : captureSpec 10 1 p1 = (some specbuf, p2))
    (hhdr : strncmp imjHeader specbuf 5 = 0) :
    srv1_fill_image x p =
      (1, { x1 with
            frame_size := frameSizeOf specbuf,
            frame := some (bufStore (resizeFrame x1.frame (frameSizeOf specbuf))
              (read_limited p2 (toInt32 (frameSizeOf specbuf)) 1500000).2.1) },
        (read_limited p2 (toInt32 (frameSizeOf specbuf)) 1500000).2.2) := by
  simp only [srv1_fill_image, hmode, if_neg hon, hspec, hhdr, ne_eq, not_true_eq_false,
    if_false]

theorem resizeFrame_length (frame : Option (List Int)) (n : Int) :
    (resizeFrame frame n).length = n.toNat := by
  cases frame with
  | none => simp [resizeFrame]
  | some old =>
    simp only [resizeFrame, List.length_append, List.length_take, List.length_replicate]
    omega

/-- C5: after a capture whose 10-byte header begins with `"##IMJ"`, `srv1_fill_image`
returns 1 with `frame_size = h[6] + 256 h[7] + 65536 h[8] + 16777216 h[9]` (bytes taken
as `unsigned char`), a value below `2^32`, and with a frame buffer of exactly
`frame_size` bytes; and the size decoded from the little-endian bytes of any
`n < 2^32` is `n`. -/
theorem srv1_fill_image_frame_size :
    (∀ (x x1 : srv1_comm_t) (p p1 p2 : Port) (specbuf : List Int),
      imageModePhase x p = (some x1, p1) → x1.set_image_mode ≠ SRV1_IMAGE_OFF →
      captureSpec 10 1 p1 = (some specbuf, p2) →
      (specbuf.take 5).map toUChar = [35, 35, 73, 77, 74] →
      ∃ x2 p3 buf, srv1_fill_image x p = (1, x2, p3) ∧
        x2.frame_size = toUChar (specbuf.getD 6 0) + 256 * toUChar (specbuf.getD 7 0)
          + 65536 * toUChar (specbuf.getD 8 0) + 16777216 * toUChar (specbuf.getD 9 0) ∧
        0 ≤ x2.frame_size ∧ x2.frame_size < 4294967296 ∧
        x2.frame = some buf ∧ (buf.length : Int) = x2.frame_size) ∧
    (∀ (n : Nat) (h0 h1 h2 h3 h4 h5 : Int), n < 4294967296 →
      frameSizeOf [h0, h1, h2, h3, h4, h5, ((n % 256 : Nat) : Int),
        ((n / 256 % 256 : Nat) : Int), ((n / 65536 % 256 : Nat) : Int),
        ((n / 16777216 : Nat) : Int)] = (n : Int)) := by
  constructor
  · intro x x1 p p1 p2 specbuf hmode hon hspec hhdr
    have hlen := captureSpec_length 10 1 p1 p2 specbuf hspec
    have hcmp := (strncmp_imjHeader specbuf hlen).mpr hhdr
    have hfs := frameSizeOf_eq specbuf
    have hrange : 0 ≤ frameSizeOf specbuf ∧ frameSizeOf specbuf < 4294967296 := by
      rw [hfs]; unfold toUChar; omega
    refine ⟨_, _, _, srv1_fill_image_eq x x1 p p1 p2 specbuf hmode hon hspec hcmp,
      hfs, hrange.1, hrange.2, rfl, ?_⟩
    simp only [bufStore_length, resizeFrame_length]
    omega
  · intro n h0 h1 h2 h3 h4 h5 hn
    rw [frameSizeOf_eq]
    simp only [List.getD_cons_succ, List.getD_cons_zero, toUChar]
    omega

/-- C5 at a capture in mode `'a'` whose header declares 261 bytes. -/
theorem srv1_fill_image_frame_size_witness :
    ∃ x2 p3 buf, srv1_fill_image { srv1_create with image_mode := 97 }
          (portWith [35, 97, 35, 35, 73, 77, 74, 49, 5, 1, 0, 0]) = (1, x2, p3) ∧
        x2.frame_size = toUChar (([35, 35, 73, 77, 74, 49, 5, 1, 0, 0] : List Int).getD 6 0)
          + 256 * toUChar (([35, 35, 73, 77, 74, 49, 5, 1, 0, 0] : List Int).getD 7 0)
          + 65536 * toUChar (([35, 35, 73, 77, 74, 49, 5, 1, 0, 0] : List Int).getD 8 0)
          + 16777216 * toUChar (([35, 35, 73, 77, 74, 49, 5, 1, 0, 0] : List Int).getD 9 0) ∧
        0 ≤ x2.frame_size ∧ x2.frame_size < 4294967296 ∧
        x2.frame = some buf ∧ (buf.length : Int) = x2.frame_size :=
  srv1_fill_image_frame_size.1 { srv1_create with image_mode := 97 }
    { srv1_create with image_mode := 97, set_image_mode := 97 }
    (portWith [35, 97, 35, 35, 73, 77, 74, 49, 5, 1, 0, 0])
    { portWith [35, 35, 73, 77, 74, 49, 5, 1, 0, 0] with writes := [[97]] }
    { portWith [] with writes := [[97], [73]] }
    [35, 35, 73, 77, 74, 49, 5, 1, 0, 0]
    (by decide!) (by decide) (by decide!) (by decide)


/-- C6: when the 10-byte answer to the capture request does not begin with `"##IMJ"`,
`srv1_fill_image` returns 0 and leaves the frame buffer and `frame_size` as they were. -/
theorem srv1_fill_image_wrong_header (x x1 : srv1_comm_t) (p p1 p2 : Port)
    (specbuf : List Int)
    (hmode : imageModePhase x p = (some x1, p1))
    (hon : x1.set_image_mode ≠ SRV1_IMAGE_OFF)
    (hspec : captureSpec 10 1 p1 = (some specbuf, p2))
    (hhdr : (specbuf.take 5).map toUChar ≠ [35, 35, 73, 77, 74]) :
    (srv1_fill_image x p).1 = 0 ∧
      (srv1_fill_image x p).2.1.frame = x.frame ∧
      (srv1_fill_image x p).2.1.frame_size = x.frame_size := by
  have hlen := captureSpec_length 10 1 p1 p2 specbuf hspec
  have hcmp : strncmp imjHeader specbuf 5 ≠ 0 := fun h0 =>
    hhdr ((strncmp_imjHeader specbuf hlen).mp h0)
  have hx1 := imageModePhase_state x x1 p p1 hmode
  have hrun : srv1_fill_image x p = (0, x1, (srv1_flush_input p2).2) := by
    simp only [srv1_fill_image, hmode, if_neg hon, hspec, hcmp, ne_eq, not_false_eq_true,
      if_true]
  rw [hrun, hx1]
  exact ⟨rfl, rfl, rfl⟩

/-- C6 at a capture whose header reads `"##IMK"`. -/
theorem srv1_fill_image_wrong_header_witness :
    (srv1_fill_image cameraAsked
        (portWith [35, 97, 35, 35, 73, 77, 75, 49, 5, 1, 0, 0])).1 = 0 ∧
      (srv1_fill_image cameraAsked
        (portWith [35, 97, 35, 35, 73, 77, 75, 49, 5, 1, 0, 0])).2.1.frame
        = cameraAsked.frame ∧
      (srv1_fill_image cameraAsked
        (portWith [35, 97, 35, 35, 73, 77, 75, 49, 5, 1, 0, 0])).2.1.frame_size
        = cameraAsked.frame_size :=
  srv1_fill_image_wrong_header
    cameraAsked
    { cameraAsked with set_image_mode := 97 }
    (portWith [35, 97, 35, 35, 73, 77, 75, 49, 5, 1, 0, 0])
    { portWith [35, 35, 73, 77, 75, 49, 5, 1, 0, 0] with writes := [[97]] }
    { portWith [] with writes := [[97], [73]] }
    [35, 35, 73, 77, 75, 49, 5, 1, 0, 0]
    (by decide!) (by decide) (by decide!) (by decide)

/-! ## Capture mode -/

/-- The two bytes of the acknowledgment as `srv1_fill_image` compares them. -/
theorem imageModePhase_ack (x : srv1_comm_t) (p : Port)
    (h1 : x.set_image_mode ≠ x.image_mode) (h2 : x.image_mode ≠ SRV1_IMAGE_OFF) :
    imageModePhase x p =
      if (sysWrite p [x.image_mode]).1 < 0 then (none, (sysWrite p [x.image_mode]).2)
      else if (read_limited (sysWrite p [x.image_mode]).2 2 500000).1 ≠ 2 then
        (none, (srv1_flush_input (read_limited (sysWrite p [x.image_mode]).2 2 500000).2.2).2)
      else if toSChar ((read_limited (sysWrite p [x.image_mode]).2 2 500000).2.1.getD 0 0) ≠ 35
          ∨ toSChar ((read_limited (sysWrite p [x.image_mode]).2 2 500000).2.1.getD 1 0)
            ≠ x.image_mode then
        (none, (srv1_flush_input (read_limited (sysWrite p [x.image_mode]).2 2 500000).2.2).2)
      else (some { x with set_image_mode := x.image_mode },
        (read_limited (sysWrite p [x.image_mode]).2 2 500000).2.2) := by
  simp only [imageModePhase, if_pos h1, if_pos h2]
  by_cases hw : (sysWrite p [x.image_mode]).1 < 0
  · simp only [if_pos hw]
  · simp only [if_neg hw]
    by_cases hr : (read_limited (sysWrite p [x.image_mode]).2 2 500000).1 ≠ 2
    · simp only [if_pos hr]
    · simp only [if_neg hr]
      have h2' : (read_limited (sysWrite p [x.image_mode]).2 2 500000).1 = 2 := not_not.mp hr
      have hlen : (read_limited (sysWrite p [x.image_mode]).2 2 500000).2.1.length = 2 := by
        rcases read_limited_count (sysWrite p [x.image_mode]).2 2 500000 with hc | hc
        · rw [h2'] at hc; norm_num at hc
        · rw [h2'] at hc; exact_mod_cast hc.symm
      rw [bufStore_getD _ _ 0 (by omega) (by simp), bufStore_getD _ _ 1 (by omega) (by simp)]


theorem srv1_fill_image_mode_failed (x : srv1_comm_t) (p p1 : Port)
    (h : imageModePhase x p = (none, p1)) : srv1_fill_image x p = (0, x, p1) := by
  simp only [srv1_fill_image, h]

/-- After `srv1_fill_image` the device state is the prior one, except for
`set_image_mode`, which may have become the desired mode, and for the frame. -/
theorem srv1_fill_image_state (x : srv1_comm_t) (p : Port) :
    ((srv1_fill_image x p).2.1 = x ∨
      ∃ fs fr, (srv1_fill_image x p).2.1
        = { x with set_image_mode := x.image_mode, frame_size := fs, frame := fr }) := by
  rcases hm : imageModePhase x p with ⟨o, p1⟩
  cases o with
  | none => left; rw [srv1_fill_image_mode_failed x p p1 hm]
  | some x1 =>
    have hx1 := imageModePhase_state x x1 p p1 hm
    right
    simp only [srv1_fill_image, hm]
    split_ifs with hoff
    · exact ⟨x.frame_size, x.frame, by rw [hx1]⟩
    · rcases hc : captureSpec 10 1 p1 with ⟨o2, p2⟩
      cases o2 with
      | none => exact ⟨x.frame_size, x.frame, by rw [hx1]⟩
      | some specbuf =>
        simp only
        split_ifs with hh
        · exact ⟨x.frame_size, x.frame, by rw [hx1]⟩
        · exact ⟨_, _, by rw [hx1]⟩

/-- C7: `srv1_fill_image` changes `set_image_mode` to the desired mode only, and only when
the two bytes read after the mode command are `'#'` and the desired mode, or when the
desired mode is off; with the desired mode off it writes and reads nothing and returns 1;
on a short read or a wrong acknowledgment it returns 0 and leaves the device state as it
was; and when the confirmed mode is off after the mode block it returns 1 without any
exchange. -/
theorem srv1_fill_image_capture_mode :
    (∀ (x : srv1_comm_t) (p : Port),
      ((srv1_fill_image x p).2.1.set_image_mode = x.set_image_mode ∨
        (srv1_fill_image x p).2.1.set_image_mode = x.image_mode) ∧
      (srv1_fill_image x p).2.1.image_mode = x.image_mode) ∧
    (∀ (x : srv1_comm_t) (p : Port),
      (srv1_fill_image x p).2.1.set_image_mode ≠ x.set_image_mode →
      x.image_mode = SRV1_IMAGE_OFF ∨
        ∃ a0 a1 p1, read_limited (sysWrite p [x.image_mode]).2 2 500000 = (2, [a0, a1], p1) ∧
          toSChar a0 = 35 ∧ toSChar a1 = x.image_mode) ∧
    (∀ (x : srv1_comm_t) (p : Port), x.image_mode = SRV1_IMAGE_OFF →
      srv1_fill_image x p = (1, { x with set_image_mode := SRV1_IMAGE_OFF }, p)) ∧
    (∀ (x : srv1_comm_t) (p : Port),
      x.set_image_mode ≠ x.image_mode → x.image_mode ≠ SRV1_IMAGE_OFF →
      ((read_limited (sysWrite p [x.image_mode]).2 2 500000).1 ≠ 2 ∨
        toSChar ((read_limited (sysWrite p [x.image_mode]).2 2 500000).2.1.getD 0 0) ≠ 35 ∨
        toSChar ((read_limited (sysWrite p [x.image_mode]).2 2 500000).2.1.getD 1 0)
          ≠ x.image_mode) →
      (srv1_fill_image x p).1 = 0 ∧ (srv1_fill_image x p).2.1 = x) ∧
    (∀ (x x1 : srv1_comm_t) (p p1 : Port), imageModePhase x p = (some x1, p1) →
      x1.set_image_mode = SRV1_IMAGE_OFF → srv1_fill_image x p = (1, x1, p)) := by
  refine ⟨?_, ?_, ?_, ?_, ?_⟩
  · intro x p
    rcases srv1_fill_image_state x p with h | ⟨fs, fr, h⟩
    · rw [h]; exact ⟨Or.inl rfl, rfl⟩
    · rw [h]; exact ⟨Or.inr rfl, rfl⟩
  · intro x p hchg
    by_cases hoff : x.image_mode = SRV1_IMAGE_OFF
    · exact Or.inl hoff
    · right
      have hne : x.set_image_mode ≠ x.image_mode := by
        intro heq
        rcases srv1_fill_image_state x p with h | ⟨fs, fr, h⟩
        · rw [h] at hchg; exact hchg rfl
        · rw [h] at hchg; exact hchg heq.symm
      have hack := imageModePhase_ack x p hne hoff
      split_ifs at hack with hw hr ha
      · rw [srv1_fill_image_mode_failed x p _ hack] at hchg; exact absurd rfl hchg
      · rw [srv1_fill_image_mode_failed x p _ hack] at hchg; exact absurd rfl hchg
      · rw [srv1_fill_image_mode_failed x p _ hack] at hchg; exact absurd rfl hchg
      · push_neg at hr ha
        have hlen : (read_limited (sysWrite p [x.image_mode]).2 2 500000).2.1.length = 2 := by
          rcases read_limited_count (sysWrite p [x.image_mode]).2 2 500000 with hc | hc
          · rw [hr] at hc; norm_num at hc
          · rw [hr] at hc; exact_mod_cast hc.symm
        rcases hres : read_limited (sysWrite p [x.image_mode]).2 2 500000 with ⟨n, data, p1⟩
        rw [hres] at hr ha hlen
        simp only at hr ha hlen
        match data, hlen with
        | [a0, a1], _ =>
          subst hr
          exact ⟨a0, a1, p1, rfl, by simpa using ha.1, by simpa using ha.2⟩
  · intro x p hoff
    by_cases heq : x.set_image_mode = x.image_mode
    · have hm : imageModePhase x p = (some x, p) := by
        simp only [imageModePhase, ne_eq, heq, not_true_eq_false, if_false]
      have hset : x.set_image_mode = SRV1_IMAGE_OFF := by rw [heq, hoff]
      simp only [srv1_fill_image, hm, if_pos hset]
      rw [← hset]
    · have hnn : ¬ x.image_mode ≠ SRV1_IMAGE_OFF := not_not.mpr hoff
      have hne : x.set_image_mode ≠ x.image_mode := heq
      have hm : imageModePhase x p = (some { x with set_image_mode := x.image_mode }, p) := by
        simp only [imageModePhase, if_pos hne, if_neg hnn]
      simp only [srv1_fill_image, hm, hoff, if_true]
  · intro x p hne hon hbad
    have hack := imageModePhase_ack x p hne hon
    split_ifs at hack with hw hr ha
    · rw [srv1_fill_image_mode_failed x p _ hack]; exact ⟨rfl, rfl⟩
    · rw [srv1_fill_image_mode_failed x p _ hack]; exact ⟨rfl, rfl⟩
    · rw [srv1_fill_image_mode_failed x p _ hack]; exact ⟨rfl, rfl⟩
    · push_neg at hr ha
      rcases hbad with hb | hb | hb
      · exact absurd hr hb
      · exact absurd ha.1 hb
      · exact absurd ha.2 hb
  · intro x x1 p p1 hm hoff
    have hx1 := imageModePhase_state x x1 p p1 hm
    have himg : x.image_mode = SRV1_IMAGE_OFF := by rw [hx1] at hoff; exact hoff
    have hp : p1 = p := by
      by_cases heq : x.set_image_mode = x.image_mode
      · simp only [imageModePhase, ne_eq, heq, not_true_eq_false, if_false, Prod.mk.injEq] at hm
        exact hm.2.symm
      · have hnn : ¬ x.image_mode ≠ SRV1_IMAGE_OFF := not_not.mpr himg
        have hne : x.set_image_mode ≠ x.image_mode := heq
        simp only [imageModePhase, if_pos hne, if_neg hnn, Prod.mk.injEq] at hm
        exact hm.2.symm
    simp only [srv1_fill_image, hm, if_pos hoff, hp]

/-- C7 at a request for mode `'a'` that the device acknowledges with `'#', 'b'`. -/
theorem srv1_fill_image_capture_mode_witness :
    (srv1_fill_image cameraAsked (portWith [35, 98])).1 = 0 ∧
      (srv1_fill_image cameraAsked (portWith [35, 98])).2.1 = cameraAsked :=
  srv1_fill_image_capture_mode.2.2.2.1 cameraAsked (portWith [35, 98])
    (by decide) (by decide) (Or.inr (Or.inr (by decide!)))

/-! ## The velocity curve and its inverse -/

theorem curve_pos (k : Int) (h : 20 ≤ k) : 0 < curve k := by
  have := curve_strictMono.monotone h
  rw [curve_20] at this
  linarith

/-- C11: over exact arithmetic `calc_forward` is strictly increasing on the code
magnitudes 20..127, and strictly decreasing on their negatives. -/
theorem calc_forward_strictMono (a b : Int) (h1 : 20 ≤ a) (h2 : a < b) (h3 : b ≤ 127) :
    calc_forward a < calc_forward b ∧ calc_forward (-a) > calc_forward (-b) := by
  have hlt := curve_strictMono h2
  rw [calc_forward_pos a h1 (by omega), calc_forward_pos b (by omega) h3,
    calc_forward_neg a h1 (by omega), calc_forward_neg b (by omega) h3]
  exact ⟨hlt, by linarith⟩

/-- C11 at the codes 20 and 21. -/
theorem calc_forward_strictMono_witness :
    calc_forward 20 < calc_forward 21 ∧ calc_forward (-20) > calc_forward (-21) :=
  calc_forward_strictMono 20 21 (by decide) (by decide) (by decide)

/-- C12: for every wheel code `c` in `[-127, 127]`, `calc_forward (-c) = -calc_forward c`;
`calc_forward c = 0` when `|c| < 20`; and when `|c| ≥ 20` the velocity is not zero, has
the sign of `c`, and its magnitude is the cubic
`-0.26129 + 0.01628 |c| - 0.00016261 |c|² + 5.5277e-7 |c|³`. -/
theorem calc_forward_odd_dead_cubic (c : Int) (h1 : -127 ≤ c) (h2 : c ≤ 127) :
    calc_forward (-c) = -calc_forward c ∧
    (|c| < 20 → calc_forward c = 0) ∧
    (20 ≤ |c| → calc_forward c ≠ 0 ∧ (0 < c → 0 < calc_forward c) ∧
      (c < 0 → calc_forward c < 0) ∧
      |calc_forward c| = -26129 / 100000 + 1628 / 100000 * ((|c| : Int) : ℚ)
        + -16261 / 100000000 * ((|c| : Int) : ℚ) ^ 2 + 55277 / 100000000000 * ((|c| : Int) : ℚ) ^ 3) := by
  have hcurve : ∀ k : Int, curve k = -26129 / 100000 + 1628 / 100000 * (k : ℚ)
      + -16261 / 100000000 * (k : ℚ) ^ 2 + 55277 / 100000000000 * (k : ℚ) ^ 3 := by
    intro k; simp only [curve]; ring
  rcases lt_or_le c 20 with hlt | hge
  · rcases lt_or_le (-20) c with hgt | hle
    · -- dead zone
      have hz := calc_forward_dead c hgt hlt
      have hzn := calc_forward_dead (-c) (by omega) (by omega)
      refine ⟨by rw [hz, hzn, neg_zero], fun _ => hz, ?_⟩
      intro habs
      have : |c| < 20 := abs_lt.mpr ⟨hgt, hlt⟩
      omega
    · -- negative codes
      have hm : 20 ≤ -c := by omega
      have hc : c = -(-c) := by ring
      have hf : calc_forward c = -curve (-c) := by
        rw [hc, calc_forward_neg (-c) hm (by omega), neg_neg]
      have hfn : calc_forward (-c) = curve (-c) := calc_forward_pos (-c) hm (by omega)
      have hp := curve_pos (-c) hm
      have habs : |c| = -c := abs_of_nonpos (by omega)
      refine ⟨by rw [hf, hfn, neg_neg], ?_, ?_⟩
      · intro hlt20; rw [habs] at hlt20; omega
      · intro _
        refine ⟨by rw [hf]; linarith, fun h0 => by omega, fun _ => by rw [hf]; linarith, ?_⟩
        rw [hf, abs_neg, abs_of_pos hp, habs, hcurve]
  · -- positive codes
    have hf : calc_forward c = curve c := calc_forward_pos c hge h2
    have hfn : calc_forward (-c) = -curve c := calc_forward_neg c hge h2
    have hp := curve_pos c hge
    have habs : |c| = c := abs_of_nonneg (by omega)
    refine ⟨by rw [hf, hfn], ?_, ?_⟩
    · intro hlt20; rw [habs] at hlt20; omega
    · intro _
      refine ⟨by rw [hf]; linarith, fun _ => by rw [hf]; exact hp, fun h0 => by omega, ?_⟩
      rw [hf, abs_of_pos hp, habs, hcurve]

/-- C12 at the code -46. -/
theorem calc_forward_odd_dead_cubic_witness :
    calc_forward (-(-46)) = -calc_forward (-46) ∧
    (|(-46 : Int)| < 20 → calc_forward (-46) = 0) ∧
    (20 ≤ |(-46 : Int)| → calc_forward (-46) ≠ 0 ∧ (0 < (-46 : Int) → 0 < calc_forward (-46)) ∧
      ((-46 : Int) < 0 → calc_forward (-46) < 0) ∧
      |calc_forward (-46)| = -26129 / 100000 + 1628 / 100000 * ((|(-46 : Int)| : Int) : ℚ)
        + -16261 / 100000000 * ((|(-46 : Int)| : Int) : ℚ) ^ 2
        + 55277 / 100000000000 * ((|(-46 : Int)| : Int) : ℚ) ^ 3) :=
  calc_forward_odd_dead_cubic (-46) (by decide) (by decide)

/-- C13: outside the scan band `calc_speed_hackish` is fixed: `|v| > 0.315` gives 127
for `v > 0` and -127 for `v < 0`, and `|v| < 0.05` gives 0. -/
theorem calc_speed_hackish_outside_band (v : ℚ) :
    (|v| > 315 / 1000 → (0 < v → calc_speed_hackish v = some 127) ∧
      (v < 0 → calc_speed_hackish v = some (-127))) ∧
    (|v| < 5 / 100 → calc_speed_hackish v = some 0) := by
  constructor
  · intro h
    have h1 : |v| > SRV1_MAX_VEL_X := h
    constructor
    · intro hpos
      simp only [calc_speed_hackish, if_pos h1, gt_iff_lt, if_pos hpos]
    · intro hneg
      have : ¬ v > 0 := not_lt.mpr hneg.le
      simp only [calc_speed_hackish, if_pos h1, if_neg this]
  · intro h
    have h1 : ¬ |v| > SRV1_MAX_VEL_X := by
      unfold SRV1_MAX_VEL_X
      exact not_lt.mpr (by linarith)
    simp only [calc_speed_hackish, if_neg h1, if_pos h]

/-- C13 at `v = -1`: the code saturates at -127. -/
theorem calc_speed_hackish_outside_band_witness :
    (0 < (-1 : ℚ) → calc_speed_hackish (-1) = some 127) ∧
      ((-1 : ℚ) < 0 → calc_speed_hackish (-1) = some (-127)) :=
  (calc_speed_hackish_outside_band (-1)).1 (by norm_num [abs_of_neg])


/-- C14, as stated, fails: for the pair `(-21, 21)`, `calc_angular` is not
`(calc_forward 21 - calc_forward (-21)) / SRV1_AXLE_LENGTH`. -/
theorem calc_angular_not_axle_length :
    calc_angular (-21) 21 ≠ (calc_forward 21 - calc_forward (-21)) / SRV1_AXLE_LENGTH := by
  decide!

/-- C14, amended: for all wheel codes in `[-127, 127]`,
`calc_angular left right = (calc_forward right - calc_forward left) / 0.234`, the
constant `basis` of `calc_angular`. -/
theorem calc_angular_basis (left right : Int) (hl : -127 ≤ left ∧ left ≤ 127)
    (hr : -127 ≤ right ∧ right ≤ 127) :
    calc_angular left right = (calc_forward right - calc_forward left) / (234 / 1000) := by
  simp only [calc_angular, toSChar_of_range left (by omega) (by omega),
    toSChar_of_range right (by omega) (by omega)]

/-- C14, amended, at the pair `(-21, 21)`. -/
theorem calc_angular_basis_witness :
    calc_angular (-21) 21 = (calc_forward 21 - calc_forward (-21)) / (234 / 1000) :=
  calc_angular_basis (-21) 21 (by decide) (by decide)

/-- The fastest rotation on the spot, with the codes `(-127, 127)`, is
`SRV1_MAX_VEL_W = 2.69` to the second decimal place with the basis 0.234 of
`calc_angular`, and would stay below it with `SRV1_AXLE_LENGTH`. -/
theorem calc_angular_max_matches_basis :
    SRV1_MAX_VEL_W ≤ calc_angular (-127) 127 ∧
      calc_angular (-127) 127 < SRV1_MAX_VEL_W + 1 / 100 ∧
      (calc_forward 127 - calc_forward (-127)) / SRV1_AXLE_LENGTH < SRV1_MAX_VEL_W := by
  decide!

/-! ## Sensor cycle -/

/-- C16 fails on the code: `srv1_read_sensors` returns 1 whatever `srv1_fill_image`
returns. When the device acknowledges the mode `'a'` with `'#', 'b'`, `srv1_fill_image`
returns 0 and `srv1_read_sensors` returns 1. -/
theorem srv1_read_sensors_ignores_failure :
    (∀ (x : srv1_comm_t) (p : Port), (srv1_read_sensors x p).1 = 1) ∧
      (srv1_fill_image cameraAsked (portWith [35, 98])).1 = 0 ∧
      (srv1_read_sensors cameraAsked (portWith [35, 98])).1 = 1 := by
  refine ⟨fun _ _ => rfl, by decide!, rfl⟩

/-! ## The timed read -/

theorem arrived_eq (p : Port) : p.arrived = arrivedBy p.clock p.inbound := rfl

theorem arrivedBy_append_drop (t : Nat) (l : List (Nat × Int)) :
    arrivedBy t l ++ l.drop (arrivedBy t l).length = l := by
  induction l with
  | nil => rfl
  | cons e l ih =>
    by_cases h : e.1 ≤ t
    · simp only [arrivedBy, List.takeWhile_cons, h, decide_True, if_true, List.length_cons,
        List.drop_succ_cons, List.cons_append, List.cons.injEq, true_and]
      exact ih
    · simp [arrivedBy, List.takeWhile_cons, h]

theorem arrivedBy_mono (t T : Nat) (h : t ≤ T) (l : List (Nat × Int)) :
    arrivedBy T l = arrivedBy t l ++ arrivedBy T (l.drop (arrivedBy t l).length) := by
  induction l with
  | nil => rfl
  | cons e l ih =>
    by_cases h1 : e.1 ≤ t
    · have h2 : e.1 ≤ T := le_trans h1 h
      simp only [arrivedBy, List.takeWhile_cons, h1, h2, decide_True, if_true,
        List.length_cons, List.drop_succ_cons, List.cons_append, List.cons.injEq, true_and]
      exact ih
    · simp [arrivedBy, List.takeWhile_cons, h1]

theorem take_arrivedBy (t n : Nat) (l : List (Nat × Int)) (h : n ≤ (arrivedBy t l).length) :
    (arrivedBy t l).take n = l.take n := by
  have := arrivedBy_append_drop t l
  conv_rhs => rw [← this]
  rw [List.take_append_of_le_length h]

theorem count_of_int (nr : Nat) (h : nr < 9223372036854775808) :
    (((nr : Int) % 18446744073709551616).toNat) = nr := by
  omega

/-- Past the deadline `read_limited` returns the count it has, whatever the fuel. -/
theorem readLoop_deadline (bytes microsecs : Int) (start fuel : Nat) (p : Port) (nr : Int)
    (acc : List Int) (h : ((p.clock : Int) - (start : Int)) > microsecs) :
    readLoop bytes microsecs start fuel p nr acc = (bytes - nr, acc, p) := by
  cases fuel with
  | zero => rfl
  | succ k => simp only [readLoop, if_pos h]

theorem sysRead_full (p : Port) (nr : Nat) (hf : p.readFault = false) (h0 : 0 < nr)
    (hle : nr ≤ (arrivedBy p.clock p.inbound).length) :
    sysRead p nr = (.data ((p.inbound.take nr).map Prod.snd),
      { p with inbound := p.inbound.drop nr }) := by
  have hnz : ¬ nr = 0 := by omega
  have hft : ¬ p.readFault = true := by rw [hf]; simp
  have hlen : ((arrivedBy p.clock p.inbound).take nr).length = nr := by
    rw [List.length_take]; omega
  have hne : ¬ ((arrivedBy p.clock p.inbound).take nr).isEmpty = true := by
    rw [List.isEmpty_iff_length_eq_zero, hlen]; exact hnz
  unfold sysRead
  rw [if_neg hft, if_neg hnz]
  simp only [arrived_eq]
  rw [if_neg hne, hlen, take_arrivedBy _ _ _ hle]

theorem sysRead_none (p : Port) (nr : Nat) (hf : p.readFault = false) (h0 : 0 < nr)
    (hnil : arrivedBy p.clock p.inbound = []) : sysRead p nr = (.eagain, p) := by
  have hnz : ¬ nr = 0 := by omega
  have hft : ¬ p.readFault = true := by rw [hf]; simp
  unfold sysRead
  rw [if_neg hft, if_neg hnz]
  simp only [arrived_eq, hnil, List.take_nil, List.isEmpty_nil, if_true]

theorem sysRead_part (p : Port) (nr : Nat) (hf : p.readFault = false)
    (hne : arrivedBy p.clock p.inbound ≠ [])
    (hlt : (arrivedBy p.clock p.inbound).length < nr) :
    sysRead p nr = (.data ((arrivedBy p.clock p.inbound).map Prod.snd),
      { p with inbound := p.inbound.drop (arrivedBy p.clock p.inbound).length }) := by
  have hnz : ¬ nr = 0 := by omega
  have hft : ¬ p.readFault = true := by rw [hf]; simp
  have htake : (arrivedBy p.clock p.inbound).take nr = arrivedBy p.clock p.inbound :=
    List.take_of_length_le (by omega)
  have hemp : ¬ (arrivedBy p.clock p.inbound).isEmpty = true := by
    rw [List.isEmpty_iff]; exact hne
  unfold sysRead
  rw [if_neg hft, if_neg hnz]
  simp only [arrived_eq, htake]
  rw [if_neg hemp]

/-- A round of `read_limited` within the deadline that completes the count. -/
theorem readLoop_round_full (bytes microsecs : Int) (start fuel : Nat) (p : Port) (nr : Nat)
    (acc : List Int) (hf : p.readFault = false)
    (h : ¬ ((p.clock : Int) - (start : Int)) > microsecs)
    (h0 : 0 < nr) (hn : nr < 9223372036854775808)
    (hle : nr ≤ (arrivedBy p.clock p.inbound).length) :
    readLoop bytes microsecs start (fuel + 1) p (nr : Int) acc =
      (bytes, acc ++ (p.inbound.take nr).map Prod.snd,
        { p with inbound := p.inbound.drop nr }) := by
  have hlen : ((p.inbound.take nr).map Prod.snd).length = nr := by
    have := (arrivedBy_append_drop p.clock p.inbound)
    have hl : nr ≤ p.inbound.length := by
      calc nr ≤ (arrivedBy p.clock p.inbound).length := hle
        _ ≤ p.inbound.length := by
          conv_rhs => rw [← this]
          simp
    simp [List.length_take, hl]
  rw [readLoop, if_neg h, count_of_int nr hn, sysRead_full p nr hf h0 hle]
  simp only [hlen, sub_self, if_true]

/-- A round of `read_limited` within the deadline that leaves bytes to read. -/
theorem readLoop_round_part (bytes microsecs : Int) (start fuel : Nat) (p : Port) (nr : Nat)
    (acc : List Int) (hf : p.readFault = false)
    (h : ¬ ((p.clock : Int) - (start : Int)) > microsecs)
    (hn : nr < 9223372036854775808)
    (hlt : (arrivedBy p.clock p.inbound).length < nr) :
    readLoop bytes microsecs start (fuel + 1) p (nr : Int) acc =
      readLoop bytes microsecs start fuel
        { p with clock := p.clock + 20 + p.lag,
                 inbound := p.inbound.drop (arrivedBy p.clock p.inbound).length }
        ((nr - (arrivedBy p.clock p.inbound).length : Nat) : Int)
        (acc ++ (arrivedBy p.clock p.inbound).map Prod.snd) := by
  have h0 : 0 < nr := by omega
  by_cases hnil : arrivedBy p.clock p.inbound = []
  · rw [readLoop, if_neg h, count_of_int nr hn, sysRead_none p nr hf h0 hnil]
    simp only [hnil, List.length_nil, List.drop_zero, List.map_nil, List.append_nil,
      Nat.sub_zero, Port.sleep]
  · rw [readLoop, if_neg h, count_of_int nr hn, sysRead_part p nr hf hnil hlt]
    have hpos : ¬ ((nr : Int) - (((arrivedBy p.clock p.inbound).map Prod.snd).length : Int) = 0) := by
      rw [List.length_map]; omega
    simp only [hpos, if_false, Port.sleep]
    congr 1
    rw [List.length_map]
    omega


theorem take_split (t nr : Nat) (l : List (Nat × Int)) (h : (arrivedBy t l).length ≤ nr) :
    l.take nr = arrivedBy t l ++ (l.drop (arrivedBy t l).length).take (nr - (arrivedBy t l).length) := by
  have hl := arrivedBy_append_drop t l
  conv_lhs => rw [← hl]
  rw [List.take_append_eq_append_take, List.take_of_length_le h]

/-- The rounds of `read_limited` from a polling round on: `T` is the start of the last
round within the deadline and `d` the number of rounds still to come before it. -/
theorem readLoop_polls (bytes microsecs : Int) (start T : Nat)
    (hT1 : (T : Int) - (start : Int) ≤ microsecs) :
    ∀ (d fuel : Nat) (p : Port) (nr : Nat) (acc : List Int),
      p.readFault = false → T = p.clock + d * (20 + p.lag) → start ≤ p.clock →
      microsecs < ((T + (20 + p.lag) : Nat) : Int) - (start : Int) →
      d + 1 ≤ fuel → 0 < nr → nr < 9223372036854775808 →
      ((arrivedBy T p.inbound).length < nr →
        readLoop bytes microsecs start fuel p (nr : Int) acc =
          (bytes - (nr : Int) + ((arrivedBy T p.inbound).length : Int),
            acc ++ (arrivedBy T p.inbound).map Prod.snd,
            { p with clock := T + (20 + p.lag),
                     inbound := p.inbound.drop (arrivedBy T p.inbound).length })) ∧
      (nr ≤ (arrivedBy T p.inbound).length →
        (readLoop bytes microsecs start fuel p (nr : Int) acc).1 = bytes ∧
        (readLoop bytes microsecs start fuel p (nr : Int) acc).2.1
          = acc ++ (p.inbound.take nr).map Prod.snd) := by
  intro d
  induction d with
  | zero =>
    intro fuel p nr acc hf hT hs hhi hfuel h0 hn
    obtain ⟨f, rfl⟩ : ∃ f, fuel = f + 1 := ⟨fuel - 1, by omega⟩
    have hTc : T = p.clock := by simpa using hT
    subst hTc
    have hin : ¬ ((p.clock : Int) - (start : Int)) > microsecs := not_lt.mpr hT1
    constructor
    · intro hlt
      rw [readLoop_round_part bytes microsecs start f p nr acc hf hin hn hlt,
        readLoop_deadline _ _ _ _ _ _ _ (by simp only; push_cast at hhi ⊢; omega)]
      refine Prod.ext ?_ (Prod.ext rfl ?_)
      · simp only; push_cast [Nat.cast_sub hlt.le]; ring
      · simp only [Nat.add_assoc]
    · intro hle
      rw [readLoop_round_full bytes microsecs start f p nr acc hf hin h0 hn hle]
      exact ⟨rfl, rfl⟩
  | succ d ih =>
    intro fuel p nr acc hf hT hs hhi hfuel h0 hn
    obtain ⟨f, rfl⟩ : ∃ f, fuel = f + 1 := ⟨fuel - 1, by omega⟩
    have hstep : T = p.clock + 20 + p.lag + d * (20 + p.lag) := by
      rw [hT, Nat.succ_mul]; omega
    have hle_T : p.clock ≤ T := by omega
    have hin : ¬ ((p.clock : Int) - (start : Int)) > microsecs := by
      have : (p.clock : Int) ≤ (T : Int) := by exact_mod_cast hle_T
      omega
    have hmono := arrivedBy_mono p.clock T hle_T p.inbound
    have hlenA : (arrivedBy T p.inbound).length = (arrivedBy p.clock p.inbound).length
        + (arrivedBy T (p.inbound.drop (arrivedBy p.clock p.inbound).length)).length := by
      conv_lhs => rw [hmono]
      rw [List.length_append]
    by_cases hfull : nr ≤ (arrivedBy p.clock p.inbound).length
    · constructor
      · intro hlt; omega
      · intro _
        rw [readLoop_round_full bytes microsecs start f p nr acc hf hin h0 hn hfull]
        exact ⟨rfl, rfl⟩
    · have hpart : (arrivedBy p.clock p.inbound).length < nr := by omega
      rw [readLoop_round_part bytes microsecs start f p nr acc hf hin hn hpart]
      have hih := ih f
        { p with clock := p.clock + 20 + p.lag,
                 inbound := p.inbound.drop (arrivedBy p.clock p.inbound).length }
        (nr - (arrivedBy p.clock p.inbound).length)
        (acc ++ (arrivedBy p.clock p.inbound).map Prod.snd)
        hf hstep (by simp only; omega) hhi (by omega) (by omega) (by omega)
      simp only at hih
      constructor
      · intro hlt
        rw [hih.1 (by omega)]
        refine Prod.ext ?_ (Prod.ext ?_ ?_)
        · simp only; rw [hlenA]; push_cast [Nat.cast_sub hpart.le]; ring
        · simp only
          conv_rhs => rw [hmono]
          rw [List.map_append, List.append_assoc]
        · simp only [List.drop_drop, hlenA, Nat.add_comm]
      · intro hle
        obtain ⟨h1, h2⟩ := hih.2 (by omega)
        refine ⟨h1, ?_⟩
        rw [h2, take_split p.clock nr p.inbound hpart.le, List.map_append, List.append_assoc]


theorem bufStore_take (buf data : List Int) (h : data.length ≤ buf.length) :
    (bufStore buf data).take data.length = data := by
  unfold bufStore
  rw [List.take_of_length_le h, List.take_left']
  rfl

/-- C15: on a line without read faults, `read_limited` asked for `n` bytes returns the
number `k` of bytes delivered within the deadline when `k < n`, never -1, and has
stored exactly these bytes, in order, at the start of the buffer; when `n` bytes or more
are delivered within the deadline it returns `n` with the first `n` bytes stored. -/
theorem read_limited_short_on_timeout (p : Port) (n microsecs : Int)
    (hf : p.readFault = false) (hn0 : 0 ≤ n) (hn : n ≤ 2147483647) (hm : 0 ≤ microsecs) :
    (((delivered p microsecs).length : Int) < n →
      read_limited p n microsecs =
        (((delivered p microsecs).length : Int), (delivered p microsecs).map Prod.snd,
          { p with clock := lastPoll p microsecs + (20 + p.lag),
                   inbound := p.inbound.drop (delivered p microsecs).length }) ∧
      ∀ buf : List Int, n ≤ (buf.length : Int) →
        (bufStore buf (read_limited p n microsecs).2.1).take (delivered p microsecs).length
          = (delivered p microsecs).map Prod.snd) ∧
    (n ≤ ((delivered p microsecs).length : Int) →
      (read_limited p n microsecs).1 = n ∧
      (read_limited p n microsecs).2.1 = (p.inbound.take n.toNat).map Prod.snd) := by
  obtain ⟨m, rfl⟩ : ∃ m : Nat, microsecs = (m : Int) := ⟨microsecs.toNat, by omega⟩
  obtain ⟨k, rfl⟩ : ∃ k : Nat, n = (k : Int) := ⟨n.toNat, by omega⟩
  have hstep : 0 < 20 + p.lag := by omega
  have hT1 : ((lastPoll p (m : Int) : Nat) : Int) - (p.clock : Int) ≤ (m : Int) := by
    have := Nat.div_mul_le_self m (20 + p.lag)
    simp only [lastPoll, Int.toNat_ofNat]
    push_cast
    have h2 : ((m / (20 + p.lag) * (20 + p.lag) : Nat) : Int) ≤ (m : Int) := by exact_mod_cast this
    push_cast at h2
    omega
  have hhi : (m : Int) < ((lastPoll p (m : Int) + (20 + p.lag) : Nat) : Int) - (p.clock : Int) := by
    have := Nat.lt_div_mul_add (a := m) hstep
    simp only [lastPoll, Int.toNat_ofNat]
    have h2 : ((m : Nat) : Int) < ((m / (20 + p.lag) * (20 + p.lag) + (20 + p.lag) : Nat) : Int) := by
      exact_mod_cast this
    push_cast at h2 ⊢
    omega
  have hfuel : m / (20 + p.lag) + 1 ≤ m / 20 + 2 := by
    have := Nat.div_le_div_left (a := m) (show 20 ≤ 20 + p.lag by omega) (by norm_num)
    omega
  simp only [Int.toNat_ofNat]
  rcases Nat.eq_zero_or_pos k with hk | hk
  · subst hk
    constructor
    · intro hlt
      exfalso
      have : (0 : Int) ≤ ((delivered p (m : Int)).length : Int) := Int.natCast_nonneg _
      simp only [Nat.cast_zero] at hlt
      omega
    · intro _
      have hin : ¬ ((p.clock : Int) - (p.clock : Int)) > (m : Int) := by
        simp only [sub_self]; omega
      have hft : ¬ p.readFault = true := by rw [hf]; simp
      simp [read_limited, readLoop, hin, sysRead, hft]
  · have hmain := readLoop_polls (k : Int) (m : Int) p.clock (lastPoll p (m : Int)) hT1
      (m / (20 + p.lag)) (m / 20 + 2) p k [] hf (by simp [lastPoll]) (le_refl _) hhi hfuel hk
      (by omega)
    simp only [List.nil_append] at hmain
    constructor
    · intro hlt
      have hlt' : (delivered p (m : Int)).length < k := by exact_mod_cast hlt
      have hres : read_limited p (k : Int) (m : Int) =
          (((delivered p (m : Int)).length : Int), (delivered p (m : Int)).map Prod.snd,
            { p with clock := lastPoll p (m : Int) + (20 + p.lag),
                     inbound := p.inbound.drop (delivered p (m : Int)).length }) := by
        have := hmain.1 hlt'
        simp only [read_limited, Int.toNat_ofNat, delivered]
        rw [this]
        simp
      refine ⟨hres, ?_⟩
      intro buf hbuf
      rw [hres]
      simp only
      have hlen : ((delivered p (m : Int)).map Prod.snd).length ≤ buf.length := by
        rw [List.length_map]
        have : (k : Int) ≤ (buf.length : Int) := hbuf
        omega
      have := bufStore_take buf ((delivered p (m : Int)).map Prod.snd) hlen
      rw [List.length_map] at this
      exact this
    · intro hle
      have hle' : k ≤ (delivered p (m : Int)).length := by exact_mod_cast hle
      have := hmain.2 hle'
      simp only [read_limited, Int.toNat_ofNat]
      exact this

/-- C15 at a request for 10 bytes within 0.25 s on a line that delivers two bytes at
once, two more after 0.15 s, and then nothing: the call returns 4. -/
theorem read_limited_short_on_timeout_witness :
    read_limited fourBytePort 10 250000 =
      (4, [35, 35, 73, 77],
        { fourBytePort with clock := 300000, inbound := [] }) ∧
    ∀ buf : List Int, (10 : Int) ≤ (buf.length : Int) →
      (bufStore buf (read_limited fourBytePort 10 250000).2.1).take 4 = [35, 35, 73, 77] :=
  (read_limited_short_on_timeout fourBytePort 10 250000 (by decide) (by decide) (by decide)
    (by decide)).1 (by decide)

/-! ## Range of the rotation search -/

theorem runLoop_preserves {σ : Type} (body : σ → Step σ) (I : σ → Prop)
    (hnext : ∀ s s1, I s → body s = .next s1 → I s1)
    (hdone : ∀ s s1, I s → body s = .done s1 → I s1) :
    ∀ (fuel : Nat) (s t : σ), I s → runLoop body fuel s = some t → I t := by
  intro fuel
  induction fuel with
  | zero => intro s t _ h; simp [runLoop] at h
  | succ n ih =>
    intro s t hs h
    simp only [runLoop] at h
    cases hb : body s with
    | done s1 =>
      rw [hb] at h
      simp only [Option.some.injEq] at h
      rw [← h]; exact hdone s s1 hs hb
    | next s1 =>
      rw [hb] at h
      exact ih s1 t (hnext s s1 hs hb) h

theorem rotForward_inv (dx : ℚ) (c : Int) (hc : 0 < c ∧ c ≤ 127) (s s1 : RotState)
    (hs : ForwardInv c s) (h : rotForward dx s = .next s1 ∨ rotForward dx s = .done s1) :
    ForwardInv c s1 := by
  obtain ⟨l, r, d⟩ := s
  unfold ForwardInv at hs ⊢
  simp only [rotForward, rotForwardSecond] at h
  rcases hs with ⟨h1, h2, h3⟩ | ⟨h1, h2, h3, h4⟩ | ⟨h1, h2, h3, h4⟩
  all_goals simp only at h1 h2 h3
  all_goals subst h1
  all_goals split_ifs at h
  all_goals simp at h
  all_goals first
    | contradiction
    | (exfalso; linarith)
    | (subst h; dsimp only at *; omega)

theorem rotBackward_inv (dx : ℚ) (c : Int) (hc : -127 ≤ c ∧ c < 0) (s s1 : RotState)
    (hs : BackwardInv c s) (h : rotBackward dx s = .next s1 ∨ rotBackward dx s = .done s1) :
    BackwardInv c s1 := by
  obtain ⟨l, r, d⟩ := s
  unfold BackwardInv at hs ⊢
  simp only [rotBackward, rotBackwardSecond] at h
  rcases hs with ⟨h1, h2, h3⟩ | ⟨h1, h2, h3, h4⟩ | ⟨h1, h2, h3, h4⟩
  all_goals simp only at h1 h2 h3
  all_goals subst h1
  all_goals split_ifs at h
  all_goals simp at h
  all_goals first
    | contradiction
    | (exfalso; linarith)
    | (subst h; dsimp only at *; omega)

theorem rotStationary_inv (dx : ℚ) (s s1 : RotState)
    (hs : StationaryInv s) (h : rotStationary dx s = .next s1 ∨ rotStationary dx s = .done s1) :
    StationaryInv s1 := by
  obtain ⟨l, r, d⟩ := s
  unfold StationaryInv at hs ⊢
  simp only [rotStationary, rotStationarySecond] at h
  rcases hs with ⟨h1, h2, h3⟩ | ⟨h1, h2, h3, h4⟩ | ⟨h1, h2, h3, h4⟩
  all_goals simp only at h1 h2 h3
  all_goals subst h1
  all_goals split_ifs at h
  all_goals simp at h
  all_goals first
    | contradiction
    | (exfalso; linarith)
    | (exfalso; omega)
    | (subst h; dsimp only at *; omega)

theorem calc_rot_hackish_eq_rotSearch (fuel : Nat) (dx : ℚ) (left right : Int)
    (h : ¬ |dx| < 5 / 100) :
    calc_rot_hackish fuel dx left right =
      match rotSearch fuel dx left right with
      | none => none
      | some s => some (toSChar s.l, toSChar s.r) := by
  simp only [calc_rot_hackish, if_neg h, rotSearch]

/-- Whatever the selected loop returns, started from `l = r = c`, is in range, and
outside the stationary loop one of the two codes is still `c`. -/
theorem rotSearch_range (fuel : Nat) (dx : ℚ) (c : Int) (hc : -127 ≤ c ∧ c ≤ 127)
    (s : RotState) (h : rotSearch fuel dx c c = some s) :
    (-127 ≤ s.l ∧ s.l ≤ 127 ∧ -127 ≤ s.r ∧ s.r ≤ 127) ∧ (c ≠ 0 → s.l = c ∨ s.r = c) := by
  unfold rotSearch at h
  split_ifs at h with h0 hpos
  · subst h0
    have hinv := runLoop_preserves (rotStationary dx) StationaryInv
      (fun s s1 hs hb => rotStationary_inv dx s s1 hs (Or.inl hb))
      (fun s s1 hs hb => rotStationary_inv dx s s1 hs (Or.inr hb))
      fuel _ s (Or.inl ⟨rfl, rfl, rfl⟩) h
    unfold StationaryInv at hinv
    refine ⟨by omega, fun hne => absurd rfl hne⟩
  · have hinv := runLoop_preserves (rotForward dx) (ForwardInv c)
      (fun s s1 hs hb => rotForward_inv dx c ⟨hpos, hc.2⟩ s s1 hs (Or.inl hb))
      (fun s s1 hs hb => rotForward_inv dx c ⟨hpos, hc.2⟩ s s1 hs (Or.inr hb))
      fuel _ s (Or.inl ⟨rfl, rfl, rfl⟩) h
    unfold ForwardInv at hinv
    exact ⟨by omega, fun _ => by omega⟩
  · have hneg : c < 0 := by omega
    have hinv := runLoop_preserves (rotBackward dx) (BackwardInv c)
      (fun s s1 hs hb => rotBackward_inv dx c ⟨hc.1, hneg⟩ s s1 hs (Or.inl hb))
      (fun s s1 hs hb => rotBackward_inv dx c ⟨hc.1, hneg⟩ s s1 hs (Or.inr hb))
      fuel _ s (Or.inl ⟨rfl, rfl, rfl⟩) h
    unfold BackwardInv at hinv
    exact ⟨by omega, fun _ => by omega⟩

/-- C18: for every target `dw` and every start pair `left = right = c` in `[-127, 127]`,
when `calc_rot_hackish` returns `(l, r)`, both codes lie in `[-127, 127]`; they are the
`int` values of `l` and `r` at the end of the search themselves, so storing them back
into `signed char` loses nothing; and for `c ≠ 0` one of the two codes is still `c`. -/
theorem calc_rot_hackish_codes_in_range (fuel : Nat) (dw : ℚ) (c l r : Int)
    (hc : -127 ≤ c ∧ c ≤ 127) (h : calc_rot_hackish fuel dw c c = some (l, r)) :
    (-127 ≤ l ∧ l ≤ 127 ∧ -127 ≤ r ∧ r ≤ 127) ∧
    (¬ |dw| < 5 / 100 → ∃ s : RotState, rotSearch fuel dw c c = some s ∧ l = s.l ∧ r = s.r) ∧
    (c ≠ 0 → l = c ∨ r = c) := by
  by_cases hsmall : |dw| < 5 / 100
  · simp only [calc_rot_hackish, if_pos hsmall, Option.some.injEq, Prod.mk.injEq] at h
    obtain ⟨h1, h2⟩ := h
    subst h1 h2
    exact ⟨⟨hc.1, hc.2, hc.1, hc.2⟩, fun hn => absurd hsmall hn, fun _ => Or.inl rfl⟩
  · rw [calc_rot_hackish_eq_rotSearch fuel dw c c hsmall] at h
    cases hs : rotSearch fuel dw c c with
    | none => rw [hs] at h; simp at h
    | some s =>
      rw [hs] at h
      simp only [Option.some.injEq, Prod.mk.injEq] at h
      obtain ⟨hrange, hone⟩ := rotSearch_range fuel dw c hc s hs
      have hl : toSChar s.l = s.l := toSChar_of_range _ (by omega) (by omega)
      have hr : toSChar s.r = s.r := toSChar_of_range _ (by omega) (by omega)
      rw [hl, hr] at h
      obtain ⟨h1, h2⟩ := h
      subst h1 h2
      exact ⟨hrange, fun _ => ⟨s, rfl, rfl, rfl⟩, hone⟩

/-- C18 at `dw = 0.5` with the start code 46: the search returns `(46, 127)`. -/
theorem calc_rot_hackish_codes_in_range_witness :
    (-127 ≤ (46 : Int) ∧ (46 : Int) ≤ 127 ∧ -127 ≤ (127 : Int) ∧ (127 : Int) ≤ 127) ∧
    (¬ |(1 / 2 : ℚ)| < 5 / 100 →
      ∃ s : RotState, rotSearch 82 (1 / 2) 46 46 = some s ∧ (46 : Int) = s.l ∧ (127 : Int) = s.r) ∧
    ((46 : Int) ≠ 0 → (46 : Int) = 46 ∨ (127 : Int) = 46) :=
  calc_rot_hackish_codes_in_range 82 (1 / 2) 46 46 127 (by decide) (by decide!)


/-! ## When the rotation search returns -/

theorem runLoop_returns_or_stalls {σ : Type} (body : σ → Step σ) (I : σ → Prop) (μ : σ → Nat)
    (hnext : ∀ s s1, I s → body s = .next s1 → I s1 ∧ (μ s1 < μ s ∨ s1 = s)) :
    ∀ (fuel : Nat) (s : σ), I s → μ s < fuel →
      (∃ t, runLoop body fuel s = some t) ∨ (∃ s1, I s1 ∧ body s1 = .next s1) := by
  intro fuel
  induction fuel with
  | zero => intro s _ h; omega
  | succ n ih =>
    intro s hs hμ
    cases hb : body s with
    | done s1 => left; exact ⟨s1, by simp only [runLoop, hb]⟩
    | next s1 =>
      obtain ⟨hI, hprog | hsame⟩ := hnext s s1 hs hb
      · rcases ih s1 hI (by omega) with ⟨t, ht⟩ | hstall
        · left; exact ⟨t, by simp only [runLoop, hb, ht]⟩
        · right; exact hstall
      · right; exact ⟨s, hs, by rw [hsame] at hb; exact hb⟩

theorem rotForward_progress (dx : ℚ) (c : Int) (s s1 : RotState)
    (hs : ForwardInv c s) (h : rotForward dx s = .next s1) :
    forwardLeft s1 < forwardLeft s ∨ s1 = s := by
  obtain ⟨l, r, d⟩ := s
  unfold ForwardInv at hs
  unfold forwardLeft
  simp only [rotForward, rotForwardSecond] at h
  rcases hs with ⟨h1, h2, h3⟩ | ⟨h1, h2, h3, h4⟩ | ⟨h1, h2, h3, h4⟩
  all_goals simp only at h1 h2 h3
  all_goals subst h1
  all_goals split_ifs at h
  all_goals simp at h
  all_goals first
    | contradiction
    | (right; exact h.symm)
    | (left; subst h; dsimp only at *; omega)

theorem rotBackward_progress (dx : ℚ) (c : Int) (s s1 : RotState)
    (hs : BackwardInv c s) (h : rotBackward dx s = .next s1) :
    backwardLeft s1 < backwardLeft s ∨ s1 = s := by
  obtain ⟨l, r, d⟩ := s
  unfold BackwardInv at hs
  unfold backwardLeft
  simp only [rotBackward, rotBackwardSecond] at h
  rcases hs with ⟨h1, h2, h3⟩ | ⟨h1, h2, h3, h4⟩ | ⟨h1, h2, h3, h4⟩
  all_goals simp only at h1 h2 h3
  all_goals subst h1
  all_goals split_ifs at h
  all_goals simp at h
  all_goals first
    | contradiction
    | (right; exact h.symm)
    | (left; subst h; dsimp only at *; omega)

theorem rotStationary_progress (dx : ℚ) (s s1 : RotState)
    (hs : StationaryInv s) (h : rotStationary dx s = .next s1) :
    stationaryLeft s1 < stationaryLeft s ∨ s1 = s := by
  obtain ⟨l, r, d⟩ := s
  unfold StationaryInv at hs
  unfold stationaryLeft
  simp only [rotStationary, rotStationarySecond] at h
  rcases hs with ⟨h1, h2, h3⟩ | ⟨h1, h2, h3, h4⟩ | ⟨h1, h2, h3, h4⟩
  all_goals simp only at h1 h2 h3
  all_goals subst h1
  all_goals split_ifs at h
  all_goals simp at h
  all_goals first
    | contradiction
    | (exfalso; linarith)
    | (exfalso; omega)
    | (right; exact h.symm)
    | (left; subst h; simp <;> omega)


theorem rotForward_stall (dx : ℚ) (s : RotState) (h : rotForward dx s = .next s) :
    calc_angular s.l s.r = dx := by
  obtain ⟨l, r, d⟩ := s
  simp only [rotForward, rotForwardSecond] at h
  split_ifs at h
  all_goals simp at h
  all_goals exact le_antisymm (not_lt.mp (by assumption)) (not_lt.mp (by assumption))

theorem rotBackward_stall (dx : ℚ) (s : RotState) (h : rotBackward dx s = .next s) :
    calc_angular s.l s.r = dx := by
  obtain ⟨l, r, d⟩ := s
  simp only [rotBackward, rotBackwardSecond] at h
  split_ifs at h
  all_goals simp at h
  all_goals exact le_antisymm (not_lt.mp (by assumption)) (not_lt.mp (by assumption))

theorem rotStationary_stall (dx : ℚ) (s : RotState) (hs : StationaryInv s)
    (h : rotStationary dx s = .next s) : calc_angular s.l s.r = dx := by
  rcases lt_trichotomy (calc_angular s.l s.r) dx with hlt | heq | hgt
  · exfalso
    obtain ⟨l, r, d⟩ := s
    unfold StationaryInv at hs
    simp only [rotStationary, rotStationarySecond] at h
    simp only at hlt
    have hng : ¬ calc_angular l r > dx := not_lt.mpr hlt.le
    split_ifs at h
    all_goals simp at h
    all_goals omega
  · exact heq
  · exfalso
    obtain ⟨l, r, d⟩ := s
    unfold StationaryInv at hs
    simp only [rotStationary, rotStationarySecond] at h
    simp only at hgt
    have hnl : ¬ calc_angular l r < dx := not_lt.mpr hgt.le
    split_ifs at h
    all_goals simp at h
    all_goals omega

/-- The rotation search from `left = right = c` returns within 256 rounds unless it
reaches a pair of codes whose angular velocity is the target exactly. -/
theorem calc_rot_hackish_returns_unless_exact (fuel : Nat) (dw : ℚ) (c : Int)
    (hc : -127 ≤ c ∧ c ≤ 127) (hfuel : 256 ≤ fuel) :
    (∃ l r, calc_rot_hackish fuel dw c c = some (l, r)) ∨
    (∃ l r : Int, -127 ≤ l ∧ l ≤ 127 ∧ -127 ≤ r ∧ r ≤ 127 ∧ calc_angular l r = dw) := by
  by_cases hsmall : |dw| < 5 / 100
  · left; exact ⟨c, c, by simp only [calc_rot_hackish, if_pos hsmall]⟩
  · rw [calc_rot_hackish_eq_rotSearch fuel dw c c hsmall]
    have key : (∃ t, rotSearch fuel dw c c = some t) ∨
        (∃ l r : Int, -127 ≤ l ∧ l ≤ 127 ∧ -127 ≤ r ∧ r ≤ 127 ∧ calc_angular l r = dw) := by
      unfold rotSearch
      split_ifs with h0 hpos
      · subst h0
        rcases runLoop_returns_or_stalls (rotStationary dw) StationaryInv stationaryLeft
          (fun s s1 hs hb => ⟨rotStationary_inv dw s s1 hs (Or.inl hb),
            rotStationary_progress dw s s1 hs hb⟩)
          fuel { l := 0, r := 0, direction := 0 } (Or.inl ⟨rfl, rfl, rfl⟩)
          (by simp only [stationaryLeft, if_true]; omega) with hret | ⟨s, hs, hst⟩
        · exact Or.inl hret
        · right
          refine ⟨s.l, s.r, ?_, ?_, ?_, ?_, rotStationary_stall dw s hs hst⟩
          all_goals (unfold StationaryInv at hs; omega)
      · rcases runLoop_returns_or_stalls (rotForward dw) (ForwardInv c) forwardLeft
          (fun s s1 hs hb => ⟨rotForward_inv dw c ⟨hpos, hc.2⟩ s s1 hs (Or.inl hb),
            rotForward_progress dw c s s1 hs hb⟩)
          fuel { l := c, r := c, direction := 0 } (Or.inl ⟨rfl, rfl, rfl⟩)
          (by simp only [forwardLeft]; omega) with hret | ⟨s, hs, hst⟩
        · exact Or.inl hret
        · right
          refine ⟨s.l, s.r, ?_, ?_, ?_, ?_, rotForward_stall dw s hst⟩
          all_goals (unfold ForwardInv at hs; omega)
      · have hneg : c < 0 := by omega
        rcases runLoop_returns_or_stalls (rotBackward dw) (BackwardInv c) backwardLeft
          (fun s s1 hs hb => ⟨rotBackward_inv dw c ⟨hc.1, hneg⟩ s s1 hs (Or.inl hb),
            rotBackward_progress dw c s s1 hs hb⟩)
          fuel { l := c, r := c, direction := 0 } (Or.inl ⟨rfl, rfl, rfl⟩)
          (by simp only [backwardLeft]; omega) with hret | ⟨s, hs, hst⟩
        · exact Or.inl hret
        · right
          refine ⟨s.l, s.r, ?_, ?_, ?_, ?_, rotBackward_stall dw s hst⟩
          all_goals (unfold BackwardInv at hs; omega)
    rcases key with ⟨t, ht⟩ | hex
    · left; rw [ht]; exact ⟨_, _, rfl⟩
    · right; exact hex

end Surveyor
